import Mathlib

/-!
Verification of the django-binder field-filter engine and history tracker
(`binder/models.py`), as a shallow embedding in Lean 4.

Python strings are modelled as Lean `String`/`List Char`; Python `None` as
`Option.none`; Django's `Q` objects as a record of (negation flag, predicate
key, cleaned value); exceptions as an explicit `Except` error type
distinguishing `BinderRequestError`, Django `ValidationError`, and all other
uncaught Python exceptions (`ValueError`, `TypeError`, ...).

The regular expressions of the source are hand-compiled to deterministic
matchers over `List Char`; each matcher's comment quotes the regex it
implements.  `[0-9]` and `\d` are both modelled by ASCII `Char.isDigit`.
The `$` anchor is modelled as end-of-string (Python also lets `$` match just
before a trailing newline; none of the strings considered here contain
newlines).
-/

/-- `int("...")` on a digit list: fold of decimal digits. -/
def digitsToNat (cs : List Char) : Nat :=
  cs.foldl (fun a c => a * 10 + (c.toNat - 48)) 0

/-- `int` of a digit string. -/
def strToNat (s : String) : Nat := digitsToNat s.data

/-- Python `str.ljust(w, c)`: pad on the right with `c` up to width `w`
(strings already at least `w` long are returned unchanged). -/
def pyLjust (s : String) (w : Nat) (c : Char) : String :=
  s ++ String.mk (List.replicate (w - s.length) c)

/-- Python `str.split(',')` on a character list: `""` yields `[""]`,
separators are never collapsed. -/
def splitCommaAux : List Char → List (List Char)
  | [] => [[]]
  | c :: rest =>
    if c = ',' then [] :: splitCommaAux rest
    else
      match splitCommaAux rest with
      | h :: t => (c :: h) :: t
      | [] => [[c]]

/-- Python `value.split(',')`. -/
def pySplitComma (s : String) : List String :=
  (splitCommaAux s.data).map String.mk

/-- Python string slice `s[a:b]`. -/
def pySlice (s : String) (a b : Nat) : String :=
  String.mk ((s.data.drop a).take (b - a))

/-- Gregorian leap year, as used by Python `datetime.date`. -/
def isLeapYear (y : Nat) : Bool :=
  y % 4 == 0 && (y % 100 != 0 || y % 400 == 0)

/-- Days in a month, as used by Python `datetime.date`. -/
def daysInMonth (y m : Nat) : Nat :=
  if m = 2 then (if isLeapYear y then 29 else 28)
  else if m = 4 ∨ m = 6 ∨ m = 9 ∨ m = 11 then 30
  else 31

/-- The error classes that can escape the filter engine:
`BinderRequestError`, Django `ValidationError`, and any other uncaught
Python exception (`ValueError` from `datetime` constructors, `TypeError`,
...). -/
inductive BErr where
  | requestError (msg : String)
  | validationError (msg : String)
  | pyException (msg : String)
deriving DecidableEq

/-- A `datetime.date` value (already validated by the constructor). -/
structure DateV where
  year : Nat
  month : Nat
  day : Nat
deriving DecidableEq

/-- `datetime.date(y, m, d)`: raises `ValueError` on out-of-range fields. -/
def mkPyDate (y m d : Nat) : Except BErr DateV :=
  if 1 ≤ y ∧ y ≤ 9999 ∧ 1 ≤ m ∧ m ≤ 12 ∧ 1 ≤ d ∧ d ≤ daysInMonth y m then
    .ok ⟨y, m, d⟩
  else
    .error (.pyException "ValueError: invalid date")

/-- A `tzinfo` value: `timezone.utc` or a fixed offset in minutes. -/
inductive TzV where
  | utc
  | fixedOffset (minutes : Int)
deriving DecidableEq

/-- Django `timezone.get_fixed_timezone(minutes)`, which builds
`datetime.timezone(timedelta(minutes=minutes))`; the `timezone` constructor
raises `ValueError` unless the offset is strictly between -24 and +24
hours. -/
def getFixedTimezone (minutes : Int) : Except BErr TzV :=
  if -1440 < minutes ∧ minutes < 1440 then .ok (.fixedOffset minutes)
  else .error (.pyException "ValueError: offset must be a timedelta strictly between -timedelta(hours=24) and timedelta(hours=24)")

/-- A `datetime.datetime` value; `tz = none` models a naive datetime. -/
structure DateTimeV where
  date : DateV
  hour : Nat
  minute : Nat
  second : Nat
  microsecond : Nat
  tz : Option TzV
deriving DecidableEq

/-- `datetime.datetime(...)`: raises `ValueError` on out-of-range fields. -/
def mkPyDatetime (y mo d h mi s us : Nat) (tz : Option TzV) : Except BErr DateTimeV :=
  match mkPyDate y mo d with
  | .error e => .error e
  | .ok dv =>
    if h ≤ 23 ∧ mi ≤ 59 ∧ s ≤ 59 ∧ us ≤ 999999 then .ok ⟨dv, h, mi, s, us, tz⟩
    else .error (.pyException "ValueError: invalid time component")

/-- A `datetime.time` value; the filter always attaches a `tzinfo`. -/
structure TimeV where
  hour : Nat
  minute : Nat
  second : Nat
  microsecond : Nat
  tz : Option TzV
deriving DecidableEq

/-- `datetime.time(...)`: raises `ValueError` on out-of-range fields. -/
def mkPyTime (h mi s us : Nat) (tz : Option TzV) : Except BErr TimeV :=
  if h ≤ 23 ∧ mi ≤ 59 ∧ s ≤ 59 ∧ us ≤ 999999 then .ok ⟨h, mi, s, us, tz⟩
  else .error (.pyException "ValueError: invalid time component")

/-- The identity of a model field, for error messages:
`self.field.model.__name__` and `self.field.name`. -/
structure FieldDesc where
  model : String
  name : String
deriving DecidableEq

/-- `'{}'.format(qualifier)`: Python formats `None` as `"None"`. -/
def showQual : Option String → String
  | none => "None"
  | some s => s

/-- `FieldFilter.field_description`:
`'{} {{{}}}.{{{}}}'.format(cls, model, name)`. -/
def fieldDescription (cls : String) (fd : FieldDesc) : String :=
  cls ++ " \x7b" ++ fd.model ++ "\x7d.\x7b" ++ fd.name ++ "\x7d"

/-- `check_qualifier`'s `BinderRequestError` message. -/
def unsupportedMsg (cls : String) (fd : FieldDesc) (q : Option String) : String :=
  "Qualifier " ++ showQual q ++ " not supported for type " ++ cls ++ " (" ++
    fieldDescription cls fd ++ ")."

/-- `get_q`'s `BinderRequestError` message for a bad range count. -/
def rangeCountMsg (cls : String) (fd : FieldDesc) : String :=
  "Range requires exactly 2 values for " ++ fieldDescription cls fd ++ "."

/-- `get_q`'s `ValidationError` message for a missing value. -/
def emptyValueMsg (fd : FieldDesc) : String :=
  "Value for filter \x7b" ++ fd.model ++ "\x7d.\x7b" ++ fd.name ++
    "\x7d may not be empty."

/-- `DateTimeFieldFilter.get_q`'s `ValidationError` message for
heterogeneous `in`/`range` values. -/
def sameTypesMsg (fd : FieldDesc) : String :=
  "Values for filter \x7b" ++ fd.model ++ "\x7d.\x7b" ++ fd.name ++
    "\x7d must be the same types."

/-! ### Django `dateparse` models (external collaborators of `clean_value`) -/

/-- Django `date_re`: `(?P<year>\d{4})-(?P<month>\d{1,2})-(?P<day>\d{1,2})$`,
matched with `re.match`.  Returns the three captured numbers. -/
def djangoDateMatch (cs : List Char) : Option (Nat × Nat × Nat) :=
  match cs with
  | y1 :: y2 :: y3 :: y4 :: '-' :: rest =>
    if y1.isDigit && y2.isDigit && y3.isDigit && y4.isDigit then
      let mo := rest.takeWhile Char.isDigit
      match rest.dropWhile Char.isDigit with
      | '-' :: rest3 =>
        if mo.length = 1 ∨ mo.length = 2 then
          let dd := rest3.takeWhile Char.isDigit
          if (dd.length = 1 ∨ dd.length = 2) ∧ rest3.dropWhile Char.isDigit = [] then
            some (digitsToNat [y1, y2, y3, y4], digitsToNat mo, digitsToNat dd)
          else none
        else none
      | _ => none
    else none
  | _ => none

/-- Django `parse_date`: `None` when the regex does not match, a date when
it does, and an uncaught `ValueError` when the matched numbers are not a
valid date. -/
def djangoParseDate (v : String) : Except BErr (Option DateV) :=
  match djangoDateMatch v.data with
  | none => .ok none
  | some (y, m, d) =>
    match mkPyDate y m d with
    | .error e => .error e
    | .ok dv => .ok (some dv)

/-- The groups captured by Django's `datetime_re`. -/
structure DjDtGroups where
  year : Nat
  month : Nat
  day : Nat
  hour : Nat
  minute : Nat
  second : Nat
  /-- The captured `microsecond` group (at most 6 digits), `""` if absent. -/
  microStr : String
  /-- The matched `tzinfo` text (`"Z"`, `"+HH"`, `"-HHMM"`, `"+HH:MM"`),
  `none` if absent. -/
  tzStr : Option String
deriving DecidableEq

/-- Tail of Django `datetime_re` after the minutes:
`(?::(?P<second>\d{1,2})(?:\.(?P<microsecond>\d{1,6})\d{0,6})?)?` —
returns (second, captured microsecond digits, rest). -/
def djSecFrac (cs : List Char) : Option (Nat × String × List Char) :=
  match cs with
  | ':' :: r =>
    let ss := r.takeWhile Char.isDigit
    let r2 := r.dropWhile Char.isDigit
    if ss.length = 1 ∨ ss.length = 2 then
      match r2 with
      | '.' :: r3 =>
        let ds := r3.takeWhile Char.isDigit
        if 1 ≤ ds.length ∧ ds.length ≤ 12 then
          some (digitsToNat ss, String.mk (ds.take 6), r3.dropWhile Char.isDigit)
        else none
      | _ => some (digitsToNat ss, "", r2)
    else none
  | _ => some (0, "", cs)

/-- End of Django `datetime_re`:
`(?P<tzinfo>Z|[+-]\d{2}(?::?\d{2})?)?$` — the optional timezone text,
required to consume the rest of the string. -/
def djTzMatch : List Char → Option (Option String)
  | [] => some none
  | ['Z'] => some (some "Z")
  | c :: rest =>
    if c = '+' ∨ c = '-' then
      match rest with
      | a :: b :: rest2 =>
        if a.isDigit ∧ b.isDigit then
          match rest2 with
          | [] => some (some (String.mk [c, a, b]))
          | ':' :: d1 :: d2 :: [] =>
            if d1.isDigit ∧ d2.isDigit then
              some (some (String.mk [c, a, b, ':', d1, d2]))
            else none
          | d1 :: d2 :: [] =>
            if d1.isDigit ∧ d2.isDigit then
              some (some (String.mk [c, a, b, d1, d2]))
            else none
          | _ => none
        else none
      | _ => none
    else none

/-- Django `datetime_re`:
`(?P<year>\d{4})-(?P<month>\d{1,2})-(?P<day>\d{1,2})[T ]`
`(?P<hour>\d{1,2}):(?P<minute>\d{1,2})`
`(?::(?P<second>\d{1,2})(?:\.(?P<microsecond>\d{1,6})\d{0,6})?)?`
`(?P<tzinfo>Z|[+-]\d{2}(?::?\d{2})?)?$`, matched with `re.match`. -/
def djangoDatetimeMatch (cs : List Char) : Option DjDtGroups :=
  match cs with
  | y1 :: y2 :: y3 :: y4 :: '-' :: rest =>
    if y1.isDigit && y2.isDigit && y3.isDigit && y4.isDigit then
      let mo := rest.takeWhile Char.isDigit
      match rest.dropWhile Char.isDigit with
      | '-' :: r3 =>
        if mo.length = 1 ∨ mo.length = 2 then
          let dd := r3.takeWhile Char.isDigit
          match r3.dropWhile Char.isDigit with
          | sep :: r5 =>
            if (sep = 'T' ∨ sep = ' ') ∧ (dd.length = 1 ∨ dd.length = 2) then
              let hh := r5.takeWhile Char.isDigit
              match r5.dropWhile Char.isDigit with
              | ':' :: r7 =>
                if hh.length = 1 ∨ hh.length = 2 then
                  let mi := r7.takeWhile Char.isDigit
                  if mi.length = 1 ∨ mi.length = 2 then
                    match djSecFrac (r7.dropWhile Char.isDigit) with
                    | some (sec, micro, r8) =>
                      match djTzMatch r8 with
                      | some tz =>
                        some ⟨digitsToNat [y1, y2, y3, y4], digitsToNat mo,
                              digitsToNat dd, digitsToNat hh, digitsToNat mi,
                              sec, micro, tz⟩
                      | none => none
                    | none => none
                  else none
                else none
              | _ => none
            else none
          | _ => none
        else none
      | _ => none
    else none
  | _ => none

/-- Django's offset computation for a matched `tzinfo` text other than `Z`:
`offset_mins = int(tzinfo[-2:]) if len(tzinfo) > 3 else 0;`
`offset = 60 * int(tzinfo[1:3]) + offset_mins`, negated for `-`. -/
def djTzOffset (z : String) : Int :=
  let mins : Nat := if z.length > 3 then strToNat (String.mk (z.data.drop (z.length - 2))) else 0
  let offset : Int := 60 * (strToNat (pySlice z 1 3) : Int) + mins
  if z.data.head? = some '-' then -offset else offset

/-- Django `parse_datetime`: `None` when the regex does not match, an aware
or naive datetime when it does, an uncaught `ValueError` when the matched
numbers are invalid or the offset is out of range. -/
def djangoParseDatetime (v : String) : Except BErr (Option DateTimeV) :=
  match djangoDatetimeMatch v.data with
  | none => .ok none
  | some g =>
    let tzE : Except BErr (Option TzV) :=
      match g.tzStr with
      | none => .ok none
      | some z =>
        if z = "Z" then .ok (some TzV.utc)
        else
          match getFixedTimezone (djTzOffset z) with
          | .error e => .error e
          | .ok tz => .ok (some tz)
    match tzE with
    | .error e => .error e
    | .ok tz =>
      let us := strToNat (pyLjust g.microStr 6 '0')
      match mkPyDatetime g.year g.month g.day g.hour g.minute g.second us tz with
      | .error e => .error e
      | .ok dt => .ok (some dt)

/-! ### The binder regexes of `models.py` -/

/-- The zone alternative of `DateTimeFieldFilter`'s regex:
`([A-Za-z]+|[+-][0-9]{1,4})$`. -/
def binderDtZone : List Char → Bool
  | [] => false
  | c :: rest =>
    if c = '+' ∨ c = '-' then
      let ds := rest.takeWhile Char.isDigit
      (1 ≤ ds.length ∧ ds.length ≤ 4) ∧ rest.dropWhile Char.isDigit = []
    else
      let ls := (c :: rest).takeWhile Char.isAlpha
      1 ≤ ls.length ∧ (c :: rest).dropWhile Char.isAlpha = []

/-- Tail of `DateTimeFieldFilter`'s regex after the seconds:
`([.][0-9]+)?([A-Za-z]+|[+-][0-9]{1,4})$`. -/
def binderDtTail : List Char → Bool
  | '.' :: rest =>
    let ds := rest.takeWhile Char.isDigit
    1 ≤ ds.length ∧ binderDtZone (rest.dropWhile Char.isDigit)
  | cs => binderDtZone cs

/-- `DateTimeFieldFilter`'s regex:
`^[0-9]{4}-[0-9]{2}-[0-9]{2}[T ][0-9]{2}:[0-9]{2}:[0-9]{2}`
`([.][0-9]+)?([A-Za-z]+|[+-][0-9]{1,4})$`. -/
def binderDatetimeRe : List Char → Bool
  | y1 :: y2 :: y3 :: y4 :: '-' :: m1 :: m2 :: '-' :: d1 :: d2 :: sep ::
      h1 :: h2 :: ':' :: n1 :: n2 :: ':' :: s1 :: s2 :: rest =>
    ([y1, y2, y3, y4, m1, m2, d1, d2, h1, h2, n1, n2, s1, s2].all Char.isDigit) &&
      (sep = 'T' ∨ sep = ' ') && binderDtTail rest
  | _ => false

/-- `DateFieldFilter`'s regex (also used by `DateTimeFieldFilter`):
`^[0-9]{4}-[0-9]{2}-[0-9]{2}$`. -/
def binderDateRe : List Char → Bool
  | [y1, y2, y3, y4, '-', m1, m2, '-', d1, d2] =>
    [y1, y2, y3, y4, m1, m2, d1, d2].all Char.isDigit
  | _ => false

/-- The groups of `TimeFieldFilter.time_re`. -/
structure TimeGroups where
  h : String
  m : String
  s : String
  frac : Option String
  zone : String
deriving DecidableEq

/-- The zone group of `TimeFieldFilter.time_re`: `(Z|[+-]\d{2}(?:\d{2})?)$`
(the whole rest of the string must be `Z`, or a sign followed by exactly two
or exactly four digits). -/
def timeZoneMatch : List Char → Option String
  | [] => none
  | c :: rest =>
    if c = 'Z' then (if rest = [] then some "Z" else none)
    else if c = '+' ∨ c = '-' then
      match rest with
      | [a, b] => if a.isDigit ∧ b.isDigit then some (String.mk [c, a, b]) else none
      | [a, b, d, e] =>
        if a.isDigit ∧ b.isDigit ∧ d.isDigit ∧ e.isDigit then
          some (String.mk [c, a, b, d, e])
        else none
      | _ => none
    else none

/-- Tail of `TimeFieldFilter.time_re` after the seconds:
`(?:\.(\d+))?(Z|[+-]\d{2}(?:\d{2})?)$` (a fraction is present exactly when
the next character is a dot, which no zone alternative can start with). -/
def timeFracZone : List Char → Option (Option String × String)
  | [] => none
  | c :: rest =>
    if c = '.' then
      let ds := rest.takeWhile Char.isDigit
      if 1 ≤ ds.length then
        match timeZoneMatch (rest.dropWhile Char.isDigit) with
        | some z => some (some (String.mk ds), z)
        | none => none
      else none
    else
      match timeZoneMatch (c :: rest) with
      | some z => some (none, z)
      | none => none

/-- `TimeFieldFilter.time_re`:
`^(\d{2}):(\d{2}):(\d{2})(?:\.(\d+))?(Z|[+-]\d{2}(?:\d{2})?)$`. -/
def timeReMatch (cs : List Char) : Option TimeGroups :=
  match cs with
  | h1 :: h2 :: ':' :: m1 :: m2 :: ':' :: s1 :: s2 :: rest =>
    if [h1, h2, m1, m2, s1, s2].all Char.isDigit then
      match timeFracZone rest with
      | some (frac, zone) =>
        some ⟨String.mk [h1, h2], String.mk [m1, m2], String.mk [s1, s2], frac, zone⟩
      | none => none
    else none
  | _ => none

/-! ### Cleaned values and predicate fragments -/

/-- A cleaned filter value (the Python value passed into the `Q` kwargs). -/
inductive CVal where
  | int (n : Int)
  /-- A Python `float`, modelled opaquely by its accepted literal. -/
  | float (lit : String)
  | str (s : String)
  | bool (b : Bool)
  | date (d : DateV)
  | datetime (t : DateTimeV)
  | time (t : TimeV)
  /-- Python `None` (e.g. `parse_datetime` returning `None`). -/
  | pynone
  | list (vs : List CVal)

/-- The predicate fragment built by `get_q`: `~Q(**{key: val})` when
`negated`, else `Q(**{key: val})`. -/
structure Q where
  negated : Bool
  key : String
  val : CVal

/-- `suffix = '__' + qualifier if qualifier else ''` (both `None` and the
empty string are falsy in Python). -/
def qSuffix : Option String → String
  | some s => if s = "" then "" else "__" ++ s
  | none => ""

/-- `DateTimeFieldFilter.get_q`'s rewrite of the qualifier for date-only
values: `qualifier = 'date__' + qualifier if qualifier else 'date'`. -/
def dateRewrite : Option String → Option String
  | some s => if s = "" then some "date" else some ("date__" ++ s)
  | none => some "date"

/-! ### The result of `DateTimeFieldFilter.clean_value` -/

/-- What `DateTimeFieldFilter.clean_value` can return: a `datetime.date`, a
`datetime.datetime`, or Python `None` (when binder's regex matches but
Django's stricter `parse_datetime` regex does not, e.g. a letters-only zone
other than `Z`). -/
inductive DTVal where
  | dval (d : DateV)
  | dtval (t : DateTimeV)
  | noneVal
deriving DecidableEq

/-- `type(v)` for a `DTVal`: `date`, `datetime` and `NoneType` are three
distinct Python classes (`type` is exact, not `isinstance`). -/
inductive PyType where
  | dateT
  | datetimeT
  | noneT
deriving DecidableEq

def dtTag : DTVal → PyType
  | .dval _ => .dateT
  | .dtval _ => .datetimeT
  | .noneVal => .noneT

/-- `isinstance(v, date) and not isinstance(v, datetime)` (in Python,
`datetime` is a subclass of `date`). -/
def dtIsBareDate : DTVal → Bool
  | .dval _ => true
  | _ => false

def dtToC : DTVal → CVal
  | .dval d => .date d
  | .dtval t => .datetime t
  | .noneVal => .pynone

/-! ### The allowed-qualifier sets (one list per `FieldFilter` subclass) -/

def intAllowed : List (Option String) :=
  [none, some "in", some "gt", some "gte", some "lt", some "lte", some "range", some "isnull"]

def floatAllowed : List (Option String) :=
  [none, some "in", some "gt", some "gte", some "lt", some "lte", some "range", some "isnull"]

def dateAllowed : List (Option String) :=
  [none, some "in", some "gt", some "gte", some "lt", some "lte", some "range", some "isnull"]

def dtAllowed : List (Option String) :=
  [none, some "in", some "gt", some "gte", some "lt", some "lte", some "range", some "isnull"]

def timeAllowed : List (Option String) :=
  [none, some "in", some "gt", some "gte", some "lt", some "lte", some "range", some "isnull"]

def boolAllowed : List (Option String) := [none]

def textAllowed : List (Option String) :=
  [none, some "in", some "iexact", some "contains", some "icontains",
   some "startswith", some "istartswith", some "endswith", some "iendswith",
   some "exact", some "isnull"]

def uuidAllowed : List (Option String) :=
  [none, some "in", some "iexact", some "contains", some "icontains",
   some "startswith", some "istartswith", some "endswith", some "iendswith",
   some "exact"]

def arrayAllowed : List (Option String) :=
  [none, some "contains", some "contained_by", some "overlap", some "isnull"]

def jsonAllowed : List (Option String) :=
  [none, some "contains", some "contained_by", some "has_key",
   some "has_any_keys", some "has_keys", some "isnull"]

/-! ### Python `int()` (used by `IntegerFieldFilter.clean_value`) -/

def isPySpace (c : Char) : Bool :=
  c = ' ' ∨ c = '\t' ∨ c = '\n' ∨ c = '\x0d'

/-- Digits possibly separated by single underscores (rest after the first
digit): accepts `"" `, `"2"`, `"_2"`, rejects `"_"`, `"__2"`. -/
def intDigitsRest : List Char → Bool
  | [] => true
  | '_' :: c :: r => c.isDigit && intDigitsRest r
  | c :: r => c.isDigit && intDigitsRest r

/-- A nonempty digit group with optional single underscores between digits. -/
def intDigits : List Char → Bool
  | [] => false
  | c :: r => c.isDigit && intDigitsRest r

/-- Python `int(str)`: optional surrounding whitespace, optional sign, then
decimal digits with optional single underscores between them (ASCII digits
only; Python additionally accepts Unicode decimal digits, which no test
input here uses). -/
def pyInt (s : String) : Option Int :=
  let t := ((s.data.dropWhile isPySpace).reverse.dropWhile isPySpace).reverse
  let core : List Char → Option Int := fun r =>
    if intDigits r then some (digitsToNat (r.filter (· ≠ '_'))) else none
  match t with
  | '+' :: r => core r
  | '-' :: r => (core r).map (- ·)
  | r => core r

/-- A conservative model of Python `float(str)` acceptance (sign, decimal
digits with optional point, optional exponent).  `FloatFieldFilter` only
needs acceptance/rejection; accepted literals are carried verbatim.  The
special literals `inf`/`nan` and underscores are not modelled (no claim
depends on them). -/
def pyFloatAccept (s : String) : Bool :=
  let t := ((s.data.dropWhile isPySpace).reverse.dropWhile isPySpace).reverse
  let unsigned : List Char → Bool := fun r =>
    let ds := r.takeWhile Char.isDigit
    let rest := r.dropWhile Char.isDigit
    let mantissaOk : Bool × List Char :=
      match rest with
      | '.' :: r2 =>
        let fs := r2.takeWhile Char.isDigit
        (ds.length + fs.length ≥ 1, r2.dropWhile Char.isDigit)
      | _ => (ds.length ≥ 1, rest)
    match mantissaOk with
    | (ok, r3) =>
      ok && (match r3 with
        | [] => true
        | e :: r4 =>
          (e = 'e' ∨ e = 'E') &&
            (let r5 := match r4 with
              | '+' :: r5 => r5
              | '-' :: r5 => r5
              | r5 => r5
             let es := r5.takeWhile Char.isDigit
             es.length ≥ 1 && r5.dropWhile Char.isDigit = []))
  match t with
  | '+' :: r => unsigned r
  | '-' :: r => unsigned r
  | r => unsigned r

/-! ### `clean_value` per `FieldFilter` subclass -/

/-- `IntegerFieldFilter.clean_value`: `int(v)`, `ValidationError` on
`ValueError`. -/
def intCleanValue (fd : FieldDesc) (q : Option String) (v : String) : Except BErr CVal :=
  match pyInt v with
  | some n => .ok (.int n)
  | none => .error (.validationError
      ("Invalid value \x7b" ++ v ++ "\x7d for " ++ fieldDescription "IntegerFieldFilter" fd ++ "."))

/-- `FloatFieldFilter.clean_value`: `float(v)`, `ValidationError` on
`ValueError`. -/
def floatCleanValue (fd : FieldDesc) (q : Option String) (v : String) : Except BErr CVal :=
  if pyFloatAccept v then .ok (.float v)
  else .error (.validationError
      ("Invalid value \x7b" ++ v ++ "\x7d for " ++ fieldDescription "FloatFieldFilter" fd ++ "."))

/-- `DateFieldFilter.clean_value`: the strict `YYYY-MM-DD` regex, then
`parse_date` (whose `ValueError` on an invalid calendar date escapes). -/
def dateCleanValue (fd : FieldDesc) (q : Option String) (v : String) : Except BErr CVal :=
  if binderDateRe v.data then
    match djangoParseDate v with
    | .error e => .error e
    | .ok (some d) => .ok (.date d)
    | .ok none => .ok .pynone
  else .error (.validationError
      ("Invalid YYYY-MM-DD value \x7b" ++ v ++ "\x7d for " ++ fieldDescription "DateFieldFilter" fd ++ "."))

/-- `DateTimeFieldFilter.clean_value`: datetime regex → `parse_datetime`;
else date regex → `parse_date`; else `ValidationError`. -/
def dtCleanValue (fd : FieldDesc) (q : Option String) (v : String) : Except BErr DTVal :=
  if binderDatetimeRe v.data then
    match djangoParseDatetime v with
    | .error e => .error e
    | .ok (some t) => .ok (.dtval t)
    | .ok none => .ok .noneVal
  else if binderDateRe v.data then
    match djangoParseDate v with
    | .error e => .error e
    | .ok (some d) => .ok (.dval d)
    | .ok none => .ok .noneVal
  else .error (.validationError
      ("Invalid YYYY-MM-DD(.mmm)ZONE value \x7b" ++ v ++ "\x7d for " ++
        fieldDescription "DateTimeFieldFilter" fd ++ "."))

/-- The offset computation of `TimeFieldFilter.clean_value` for a zone other
than `Z`: `tzinfo = tzinfo.ljust(5, '0');`
`offset = int(tzinfo[1:3]) * 60 + int(tzinfo[3:5])`, negated when the zone
starts with `-`. -/
def timeZoneOffset (z : String) : Int :=
  let zp := pyLjust z 5 '0'
  let offset : Int := (strToNat (pySlice zp 1 3) : Int) * 60 + strToNat (pySlice zp 3 5)
  if zp.data.head? = some '-' then -offset else offset

/-- The `tzinfo` computation of `TimeFieldFilter.clean_value`. -/
def timeTz (z : String) : Except BErr TzV :=
  if z = "Z" then .ok .utc
  else getFixedTimezone (timeZoneOffset z)

/-- `TimeFieldFilter.clean_value`: match `time_re`, right-pad the fraction
to 6 digits with `ljust`, build the zone, and call `datetime.time` (whose
`ValueError` on out-of-range components escapes uncaught). -/
def timeCleanValue (fd : FieldDesc) (q : Option String) (v : String) : Except BErr CVal :=
  match timeReMatch v.data with
  | none => .error (.validationError
      ("Invalid HH:MM:SS(.mmm) value \x7b" ++ v ++ "\x7d for " ++
        fieldDescription "TimeFieldFilter" fd ++ "."))
  | some g =>
    let hour := strToNat g.h
    let minute := strToNat g.m
    let second := strToNat g.s
    let microsecond := strToNat (pyLjust (g.frac.getD "") 6 '0')
    match timeTz g.zone with
    | .error e => .error e
    | .ok tz =>
      match mkPyTime hour minute second microsecond (some tz) with
      | .error e => .error e
      | .ok t => .ok (.time t)

/-- `BooleanFieldFilter.clean_value`: the literals `true`/`false` only. -/
def boolCleanValue (fd : FieldDesc) (q : Option String) (v : String) : Except BErr CVal :=
  if v = "true" then .ok (.bool true)
  else if v = "false" then .ok (.bool false)
  else .error (.validationError
      ("Invalid value \x7b" ++ v ++ "\x7d for " ++ fieldDescription "BooleanFieldFilter" fd ++ "."))

/-- `TextFieldFilter.clean_value`: always valid, passthrough. -/
def textCleanValue (fd : FieldDesc) (q : Option String) (v : String) : Except BErr CVal :=
  .ok (.str v)

/-- `UUIDFieldFilter.clean_value`: always valid, passthrough. -/
def uuidCleanValue (fd : FieldDesc) (q : Option String) (v : String) : Except BErr CVal :=
  .ok (.str v)

/-- `JSONFieldFilter.clean_value`.  The canonical JSON decoder
`binder.json.jsonloads` is not part of the sources under verification; it is
passed in as `jl`, so the `else` branch returns exactly the decoder's result
(success or its uniform error). -/
def jsonCleanValue (jl : String → Except BErr CVal) (q : Option String) (v : String) :
    Except BErr CVal :=
  if q = some "has_key" then .ok (.str v)
  else if q = some "has_keys" ∨ q = some "has_any_keys" then
    if v = "" then .ok (.list [])
    else .ok (.list ((pySplitComma v).map CVal.str))
  else jl v

/-! ### `FieldFilter.check_qualifier` and `get_q` -/

/-- `FieldFilter.check_qualifier`: raises `BinderRequestError` when the
qualifier is not in the filter's `allowed_qualifiers`; otherwise does
nothing (it is a pure membership test). -/
def check_qualifier (cls : String) (fd : FieldDesc) (allowed : List (Option String))
    (q : Option String) : Except BErr Unit :=
  if q ∈ allowed then .ok ()
  else .error (.requestError (unsupportedMsg cls fd q))

/-- The value-splitting block shared verbatim by `FieldFilter.get_q` and
`DateTimeFieldFilter.get_q` (the source's "TODO: Try to make the splitting
and cleaning more re-usable" copy): for `in`/`range` split on commas and
require exactly two values for `range`; otherwise a single value. -/
def splitValues (cls : String) (fd : FieldDesc) (q : Option String) (value : String) :
    Except BErr (List String) :=
  if q = some "in" ∨ q = some "range" then
    let values := pySplitComma value
    if q = some "range" ∧ values.length ≠ 2 then
      .error (.requestError (rangeCountMsg cls fd))
    else .ok values
  else .ok [value]

/-- `FieldFilter.get_q` (shared by every subclass except
`DateTimeFieldFilter`), parametric in the subclass's name, allowed
qualifiers and `clean_value`. -/
def get_q (cls : String) (fd : FieldDesc) (allowed : List (Option String))
    (clean : Option String → String → Except BErr CVal)
    (q : Option String) (value : String) (invert : Bool) (pfx : String) :
    Except BErr Q :=
  match check_qualifier cls fd allowed q with
  | .error e => .error e
  | .ok _ =>
    match splitValues cls fd q value with
    | .error e => .error e
    | .ok values =>
      let cleanedE : Except BErr CVal :=
        if q = some "isnull" then .ok (.bool true)
        else if q = some "in" ∨ q = some "range" then
          match values.mapM (clean q) with
          | .error e => .error e
          | .ok cvs => .ok (.list cvs)
        else
          match values with
          | v0 :: _ => clean q v0
          | [] => .error (.validationError (emptyValueMsg fd))
      match cleanedE with
      | .error e => .error e
      | .ok cleaned => .ok ⟨invert, pfx ++ fd.name ++ qSuffix q, cleaned⟩

/-- `DateTimeFieldFilter.get_q`: as `FieldFilter.get_q`, plus the
same-types check on `in`/`range` lists and the `date__` qualifier rewrite
when the cleaned value is a bare date. -/
def dtGetQ (fd : FieldDesc) (q : Option String) (value : String) (invert : Bool)
    (pfx : String) : Except BErr Q :=
  match check_qualifier "DateTimeFieldFilter" fd dtAllowed q with
  | .error e => .error e
  | .ok _ =>
    match splitValues "DateTimeFieldFilter" fd q value with
    | .error e => .error e
    | .ok values =>
      if q = some "isnull" then
        .ok ⟨invert, pfx ++ fd.name ++ qSuffix q, .bool true⟩
      else if q = some "in" ∨ q = some "range" then
        match values.mapM (dtCleanValue fd q) with
        | .error e => .error e
        | .ok cvs =>
          if ((cvs.map dtTag).dedup).length ≠ 1 then
            .error (.validationError (sameTypesMsg fd))
          else
            match cvs with
            | c :: _ =>
              .ok ⟨invert,
                   pfx ++ fd.name ++ qSuffix (if dtIsBareDate c then dateRewrite q else q),
                   .list (cvs.map dtToC)⟩
            | [] => .error (.validationError (sameTypesMsg fd))
      else
        match values with
        | v0 :: _ =>
          match dtCleanValue fd q v0 with
          | .error e => .error e
          | .ok c =>
            .ok ⟨invert,
                 pfx ++ fd.name ++ qSuffix (if dtIsBareDate c then dateRewrite q else q),
                 dtToC c⟩
        | [] => .error (.validationError (emptyValueMsg fd))

/-! ### `ArrayFieldFilter.get_field_filter`: the filter registry -/

/-- The Django field classes that appear in some `FieldFilter.fields`
list (class identity only — `field_cls == field_class`). -/
inductive FCName where
  | IntegerField | ForeignKey | AutoField | ManyToOneRel | ManyToManyField
  | ManyToManyRel | FloatField | DateField | DateTimeField | TimeField
  | BooleanField | CharField | TextField | UUIDField | ArrayField | JSONField
  | CITextField
deriving DecidableEq

/-- The runtime type of a field: a plain field class, or an `ArrayField`
with its `base_field`'s type. -/
inductive FieldType where
  | basic (c : FCName)
  | arrayOf (base : FieldType)

/-- `field.__class__` of a `FieldType`. -/
def ftName : FieldType → FCName
  | .basic c => c
  | .arrayOf _ => .ArrayField

/-- The `FieldFilter` subclasses, as dispatch keys. -/
inductive FilterKind where
  | integer | float | date | datetime | time | boolean | text | uuid | array | json
deriving DecidableEq

/-- `FieldFilter.__subclasses__()` in definition order, each with its
`fields` list. -/
def subclassFields : List (FilterKind × List FCName) :=
  [(.integer, [.IntegerField, .ForeignKey, .AutoField, .ManyToOneRel,
               .ManyToManyField, .ManyToManyRel]),
   (.float, [.FloatField]),
   (.date, [.DateField]),
   (.datetime, [.DateTimeField]),
   (.time, [.TimeField]),
   (.boolean, [.BooleanField]),
   (.text, [.CharField, .TextField]),
   (.uuid, [.UUIDField]),
   (.array, [.ArrayField]),
   (.json, [.JSONField])]

/-- The scanning loop of `ArrayFieldFilter.get_field_filter`: the inner
`break` only leaves the inner loop, so a *later* matching subclass would
overwrite an earlier one (the `fields` lists are disjoint, so this never
matters in practice). -/
def gffLoop : List (FilterKind × List FCName) → Option FilterKind → FCName → Option FilterKind
  | [], acc, _ => acc
  | (k, fs) :: rest, acc, c => gffLoop rest (if c ∈ fs then some k else acc) c

/-- `ArrayFieldFilter.get_field_filter` (the per-instance cache is purely an
optimization and is not modelled). -/
def get_field_filter (c : FCName) : Option FilterKind :=
  gffLoop subclassFields none c

/-! ### `clean_value` dispatch, including `ArrayFieldFilter`'s recursion -/

mutual
/-- `clean_value` of the filter `k` applied to a field of runtime type `ft`.
The `.array` case is `ArrayFieldFilter.clean_value`: resolve the
`base_field`'s filter (calling a `None` resolution result raises
`TypeError`), return `[]` for the empty string, else split on commas and
clean every element with the element filter. -/
def cleanValue (jl : String → Except BErr CVal) (k : FilterKind) (ft : FieldType)
    (fd : FieldDesc) (q : Option String) (v : String) : Except BErr CVal :=
  match k with
  | .integer => intCleanValue fd q v
  | .float => floatCleanValue fd q v
  | .date => dateCleanValue fd q v
  | .datetime =>
    match dtCleanValue fd q v with
    | .error e => .error e
    | .ok c => .ok (dtToC c)
  | .time => timeCleanValue fd q v
  | .boolean => boolCleanValue fd q v
  | .text => textCleanValue fd q v
  | .uuid => uuidCleanValue fd q v
  | .json => jsonCleanValue jl q v
  | .array =>
    match ft with
    | .basic _ => .error (.pyException "AttributeError: base_field")
    | .arrayOf base =>
      match get_field_filter (ftName base) with
      | none => .error (.pyException "TypeError: NoneType object is not callable")
      | some bk =>
        if v = "" then .ok (.list [])
        else
          match cleanList jl bk base fd q (pySplitComma v) with
          | .error e => .error e
          | .ok cvs => .ok (.list cvs)
termination_by (sizeOf ft, 0)

/-- `list(map(lambda v: filter.clean_value(qualifier, v), values))`:
clean each element in order, propagating the first error. -/
def cleanList (jl : String → Except BErr CVal) (k : FilterKind) (ft : FieldType)
    (fd : FieldDesc) (q : Option String) : List String → Except BErr (List CVal)
  | [] => .ok []
  | v :: vs =>
    match cleanValue jl k ft fd q v with
    | .error e => .error e
    | .ok c =>
      match cleanList jl k ft fd q vs with
      | .error e => .error e
      | .ok cs => .ok (c :: cs)
termination_by l => (sizeOf ft, l.length + 1)
end

/-! ### History tracking (`history_obj_post_init` / `history_obj_post_save`)

The `history` module itself is not among the sources under verification.
Modelled from the spec: `history.NewInstanceField` is an opaque sentinel
class object (never equal to any field value), and
`history.change(entityType, pk, fieldName, old, new)` appends one change
record to an external audit sink; here `history_obj_post_save` returns the
list of records it would emit, in emission order. -/

/-- A model instance as the signal handlers see it: its primary key, its
concrete non-many-to-many field values in field order (the dict built by
`binder_concrete_fields_as_dict`, with the foreign-key/file special cases
already applied to the values), and the names of its deferred (not loaded)
fields. -/
structure Inst (V : Type) where
  pk : Option Int
  fieldVals : List (String × V)
  deferredFields : List String

/-- `binder_concrete_fields_as_dict(skip_deferred_fields=...)`. -/
def concreteFieldsDict {V : Type} (skipDeferred : Bool) (inst : Inst V) :
    List (String × V) :=
  if skipDeferred then
    inst.fieldVals.filter (fun p => !inst.deferredFields.contains p.1)
  else inst.fieldVals

/-- An entry of `instance._history`: a last-known field value, or the
`history.NewInstanceField` sentinel. -/
inductive HSnap (V : Type) where
  | newInstanceField
  | val (v : V)
deriving DecidableEq

/-- Python truthiness of `instance.pk` (`None` and `0` are falsy). -/
def pkTruthy : Option Int → Bool
  | none => false
  | some n => n != 0

/-- `history_obj_post_init`: snapshot the loaded concrete fields; if the
instance has no primary key yet, replace every entry by the new-instance
sentinel. -/
def history_obj_post_init {V : Type} (inst : Inst V) : List (String × HSnap V) :=
  let h := (concreteFieldsDict true inst).map (fun p => (p.1, HSnap.val p.2))
  if !pkTruthy inst.pk then h.map (fun p => (p.1, HSnap.newInstanceField)) else h

/-- One `history.change(sender, instance.pk, field_name, old, new)` record. -/
structure Change (V : Type) where
  sender : String
  pk : Option Int
  field : String
  old : HSnap V
  new : V
deriving DecidableEq

/-- Python dict lookup `instance._history[field_name]` (`none` models
`KeyError`). -/
def histLookup {α : Type} : List (String × α) → String → Option α
  | [], _ => none
  | (k, v) :: r, n => if k = n then some v else histLookup r n

/-- Python dict assignment `instance._history[field_name] = new_value`
(replaces the existing entry in place; appends when the key is new). -/
def histUpdate {α : Type} : List (String × α) → String → α → List (String × α)
  | [], n, w => [(n, w)]
  | (k, v) :: r, n, w => if k = n then (k, w) :: r else (k, v) :: histUpdate r n w

/-- The loop body of `history_obj_post_save`: for every concrete field, look
up the snapshot entry (`KeyError` on an unfetched field silently skips it);
if it differs from the current value — or was the new-instance sentinel —
emit one change record and refresh the snapshot entry. -/
def postSaveGo {V : Type} [DecidableEq V] (sender : String) (pk : Option Int) :
    List (String × V) → List (String × HSnap V) →
    List (String × HSnap V) × List (Change V)
  | [], hist => (hist, [])
  | (n, newv) :: rest, hist =>
    match histLookup hist n with
    | none => postSaveGo sender pk rest hist
    | some old =>
      if old ≠ HSnap.val newv then
        let r := postSaveGo sender pk rest (histUpdate hist n (HSnap.val newv))
        (r.1, ⟨sender, pk, n, old, newv⟩ :: r.2)
      else postSaveGo sender pk rest hist

/-- `history_obj_post_save`: returns the refreshed snapshot and the change
records emitted (in field order). -/
def history_obj_post_save {V : Type} [DecidableEq V] (sender : String) (inst : Inst V)
    (hist : List (String × HSnap V)) :
    List (String × HSnap V) × List (Change V) :=
  postSaveGo sender inst.pk (concreteFieldsDict false inst) hist

/-! ### Spec-side zone semantics (for comparison with `timeZoneOffset`)

The spec describes the time-filter zone rule as: `'Z'` maps to UTC, and
`'±HH'` / `'±HHMM'` maps to the corresponding fixed-offset zone, with
`'±HH'` right-padded to `'±HH00'`.  These two definitions follow those
words; the theorems relate them to the source-side `timeTz`. -/

/-- The offset, in minutes, the spec ascribes to a `±HH` / `±HHMM` zone. -/
def specZoneMinutes (z : String) : Int :=
  match z.data with
  | sign :: a :: b :: rest =>
    let hh := digitsToNat [a, b]
    let mm := digitsToNat (rest.take 2)
    let off : Int := hh * 60 + mm
    if sign = '-' then -off else off
  | _ => 0

/-- The timezone the spec ascribes to a matched zone group. -/
def specTimeZone (z : String) : TzV :=
  if z = "Z" then .utc else .fixedOffset (specZoneMinutes z)

/-! ### Helper lemmas -/

theorem pySplitComma_ne_nil (s : String) : pySplitComma s ≠ [] := by
  have h : ∀ cs : List Char, splitCommaAux cs ≠ [] := by
    intro cs
    match cs with
    | [] => simp [splitCommaAux]
    | c :: rest =>
      simp only [splitCommaAux]
      split
      · simp
      · match splitCommaAux rest with
        | [] => simp
        | h :: t => simp
  simp [pySplitComma, h s.data]

theorem mapM_ok_length {α β : Type} {f : α → Except BErr β} :
    ∀ {l : List α} {res : List β}, l.mapM f = .ok res → res.length = l.length := by
  intro l
  induction l with
  | nil =>
    intro res h
    rw [List.mapM_nil] at h
    simp [pure, Except.pure] at h
    simp [← h]
  | cons a t ih =>
    intro res h
    rw [List.mapM_cons] at h
    cases hfa : f a with
    | error e => rw [hfa] at h; simp [Bind.bind, Except.bind] at h
    | ok b =>
      rw [hfa] at h
      cases hft : t.mapM f with
      | error e =>
        rw [hft] at h; simp [Bind.bind, Except.bind] at h
      | ok bs =>
        rw [hft] at h
        simp [Bind.bind, Except.bind, pure, Except.pure] at h
        subst h
        simp [ih hft]

theorem dedup_all_eq {α : Type} [DecidableEq α] :
    ∀ (l : List α) (x : α), l ≠ [] → (∀ y ∈ l, y = x) → l.dedup = [x] := by
  intro l
  induction l with
  | nil => intro x h; simp at h
  | cons a t ih =>
    intro x _ hall
    have ha : a = x := hall a (by simp)
    cases ht : t with
    | nil => simp [ha]
    | cons b t2 =>
      have ht' : t ≠ [] := by simp [ht]
      have hdt : t.dedup = [x] := ih x ht' (fun y hy => hall y (by simp [hy]))
      have hmem : a ∈ t := by
        have hbx : b = x := hall b (by simp [ht])
        rw [ha, ht, ← hbx]; simp
      rw [← ht, List.dedup_cons_of_mem hmem, hdt]

theorem dedup_length_ne_one_of_two {α : Type} [DecidableEq α] {l : List α} {x y : α}
    (hx : x ∈ l) (hy : y ∈ l) (hxy : x ≠ y) : l.dedup.length ≠ 1 := by
  intro hlen
  rcases List.length_eq_one.mp hlen with ⟨z, hz⟩
  have hx' : x ∈ l.dedup := List.mem_dedup.mpr hx
  have hy' : y ∈ l.dedup := List.mem_dedup.mpr hy
  rw [hz] at hx' hy'
  simp at hx' hy'
  exact hxy (hx'.trans hy'.symm)

theorem cleanList_ok {jl : String → Except BErr CVal} {k : FilterKind} {ft : FieldType}
    {fd : FieldDesc} {q : Option String} :
    ∀ {l : List String} {res : List CVal}, cleanList jl k ft fd q l = .ok res →
      res.length = l.length ∧
        ∀ i (h1 : i < l.length) (h2 : i < res.length),
          cleanValue jl k ft fd q (l.get ⟨i, h1⟩) = .ok (res.get ⟨i, h2⟩) := by
  intro l
  induction l with
  | nil =>
    intro res h
    simp [cleanList] at h
    subst h
    exact ⟨rfl, by intro i h1 h2; simp at h1⟩
  | cons a t ih =>
    intro res h
    rw [cleanList] at h
    cases hca : cleanValue jl k ft fd q a with
    | error e => rw [hca] at h; simp at h
    | ok c =>
      rw [hca] at h
      cases hct : cleanList jl k ft fd q t with
      | error e => rw [hct] at h; simp at h
      | ok cs =>
        rw [hct] at h
        simp at h
        subst h
        rcases ih hct with ⟨hlen, hidx⟩
        refine ⟨by simp [hlen], ?_⟩
        intro i h1 h2
        match i with
        | 0 => simpa using hca
        | Nat.succ j =>
          simp only [List.get_eq_getElem, List.getElem_cons_succ]
          have h1' : j < t.length := by simpa using h1
          have h2' : j < cs.length := by simpa using h2
          simpa using hidx j h1' h2'


theorem histLookup_append_of_none {α : Type} {pre : List (String × α)} {n : String}
    (h : histLookup pre n = none) (xs : List (String × α)) :
    histLookup (pre ++ xs) n = histLookup xs n := by
  induction pre with
  | nil => simp
  | cons p t ih =>
    rw [histLookup] at h
    by_cases hk : p.1 = n
    · rw [if_pos hk] at h; exact absurd h (by simp)
    · rw [if_neg hk] at h
      simpa [histLookup, hk] using ih h

theorem histUpdate_append_of_none {α : Type} {pre : List (String × α)} {n : String}
    (h : histLookup pre n = none) (xs : List (String × α)) (w : α) :
    histUpdate (pre ++ xs) n w = pre ++ histUpdate xs n w := by
  induction pre with
  | nil => simp
  | cons p t ih =>
    rw [histLookup] at h
    by_cases hk : p.1 = n
    · rw [if_pos hk] at h; exact absurd h (by simp)
    · rw [if_neg hk] at h
      simpa [histUpdate, hk] using ih h

theorem histLookup_update_ne {α : Type} {hist : List (String × α)} {n k : String} {w : α}
    (hnk : n ≠ k) : histLookup (histUpdate hist k w) n = histLookup hist n := by
  have hkn : ¬(k = n) := fun hkn => hnk hkn.symm
  induction hist with
  | nil => simp [histUpdate, histLookup, hkn]
  | cons p t ih =>
    by_cases hk : p.1 = k
    · simp [histUpdate, histLookup, hk, hkn]
    · by_cases hpn : p.1 = n
      · simp [histUpdate, histLookup, hk, hpn, hnk, hkn]
      · simpa [histUpdate, histLookup, hk, hpn] using ih

theorem postSaveGo_new {V : Type} [DecidableEq V] (sender : String) (pk : Option Int) :
    ∀ (l : List (String × V)) (pre : List (String × HSnap V)),
      (l.map Prod.fst).Nodup →
      (∀ n ∈ l.map Prod.fst, histLookup pre n = none) →
      postSaveGo sender pk l (pre ++ l.map (fun p => (p.1, HSnap.newInstanceField))) =
        (pre ++ l.map (fun p => (p.1, HSnap.val p.2)),
         l.map (fun p => Change.mk sender pk p.1 HSnap.newInstanceField p.2)) := by
  intro l
  induction l with
  | nil => intro pre _ _; simp [postSaveGo]
  | cons a t ih =>
    obtain ⟨an, av⟩ := a
    intro pre hnd hpre
    rw [List.map_cons] at hnd
    have hnotin : an ∉ t.map Prod.fst := (List.nodup_cons.mp hnd).1
    have hnd' : (t.map Prod.fst).Nodup := (List.nodup_cons.mp hnd).2
    have hpa : histLookup pre an = none := hpre an (by simp)
    have hlook : histLookup (pre ++ (an, HSnap.newInstanceField) ::
        t.map (fun p => (p.1, HSnap.newInstanceField))) an = some HSnap.newInstanceField := by
      rw [histLookup_append_of_none hpa]
      simp [histLookup]
    have hneq : (HSnap.newInstanceField : HSnap V) ≠ HSnap.val av := by simp
    have hupd : histUpdate (pre ++ (an, HSnap.newInstanceField) ::
        t.map (fun p => (p.1, HSnap.newInstanceField))) an (HSnap.val av) =
        (pre ++ [(an, HSnap.val av)]) ++ t.map (fun p => (p.1, HSnap.newInstanceField)) := by
      rw [histUpdate_append_of_none hpa]
      simp [histUpdate]
    have hpre' : ∀ n ∈ t.map Prod.fst, histLookup (pre ++ [(an, HSnap.val av)]) n = none := by
      intro n hn
      rw [histLookup_append_of_none (hpre n (by simp [hn]))]
      have hne : ¬(an = n) := fun he => hnotin (he ▸ hn)
      simp [histLookup, hne]
    have hih := ih (pre ++ [(an, HSnap.val av)]) hnd' hpre'
    simp only [List.map_cons]
    rw [postSaveGo]
    simp only [hlook, hupd, if_pos hneq, hih]
    simp

theorem postSaveGo_same {V : Type} [DecidableEq V] (sender : String) (pk : Option Int) :
    ∀ (l : List (String × V)) (pre : List (String × HSnap V)),
      (l.map Prod.fst).Nodup →
      (∀ n ∈ l.map Prod.fst, histLookup pre n = none) →
      postSaveGo sender pk l (pre ++ l.map (fun p => (p.1, HSnap.val p.2))) =
        (pre ++ l.map (fun p => (p.1, HSnap.val p.2)), []) := by
  intro l
  induction l with
  | nil => intro pre _ _; simp [postSaveGo]
  | cons a t ih =>
    obtain ⟨an, av⟩ := a
    intro pre hnd hpre
    rw [List.map_cons] at hnd
    have hnotin : an ∉ t.map Prod.fst := (List.nodup_cons.mp hnd).1
    have hnd' : (t.map Prod.fst).Nodup := (List.nodup_cons.mp hnd).2
    have hpa : histLookup pre an = none := hpre an (by simp)
    have hlook : histLookup (pre ++ (an, HSnap.val av) ::
        t.map (fun p => (p.1, HSnap.val p.2))) an = some (HSnap.val av) := by
      rw [histLookup_append_of_none hpa]
      simp [histLookup]
    have hpre' : ∀ n ∈ t.map Prod.fst, histLookup (pre ++ [(an, HSnap.val av)]) n = none := by
      intro n hn
      rw [histLookup_append_of_none (hpre n (by simp [hn]))]
      have hne : ¬(an = n) := fun he => hnotin (he ▸ hn)
      simp [histLookup, hne]
    have hih := ih (pre ++ [(an, HSnap.val av)]) hnd' hpre'
    have hshift : pre ++ (an, HSnap.val av) :: t.map (fun p => (p.1, HSnap.val p.2)) =
        (pre ++ [(an, HSnap.val av)]) ++ t.map (fun p => (p.1, HSnap.val p.2)) := by simp
    simp only [List.map_cons]
    rw [postSaveGo]
    simp only [hlook, if_neg (show ¬(HSnap.val av ≠ HSnap.val av) by simp)]
    rw [hshift, hih]

theorem postSaveGo_skip {V : Type} [DecidableEq V] {sender : String} {pk : Option Int} :
    ∀ (l : List (String × V)) (hist : List (String × HSnap V)) (name : String),
      histLookup hist name = none →
      ∀ c ∈ (postSaveGo sender pk l hist).2, c.field ≠ name := by
  intro l
  induction l with
  | nil => intro hist name _ c hc; simp [postSaveGo] at hc
  | cons a t ih =>
    obtain ⟨an, av⟩ := a
    intro hist name hnone c hc
    rw [postSaveGo] at hc
    cases hl : histLookup hist an with
    | none =>
      simp only [hl] at hc
      exact ih hist name hnone c hc
    | some old =>
      simp only [hl] at hc
      have hne : an ≠ name := by
        intro he
        rw [he, hnone] at hl
        exact Option.noConfusion hl
      by_cases hv : old ≠ HSnap.val av
      · rw [if_pos hv] at hc
        simp only [List.mem_cons] at hc
        rcases hc with hc | hc
        · rw [hc]; exact hne
        · have hnone' : histLookup (histUpdate hist an (HSnap.val av)) name = none := by
            rw [histLookup_update_ne (fun he => hne he.symm)]
            exact hnone
          exact ih _ name hnone' c hc
      · rw [if_neg hv] at hc
        exact ih hist name hnone c hc

theorem char_digit_sub_le {c : Char} (hc : c.isDigit) : c.toNat - 48 ≤ 9 := by
  simp [Char.isDigit] at hc
  obtain ⟨h1, h2⟩ := hc
  have h3 : c.val.toNat ≤ 57 := h2
  simp only [Char.toNat]
  omega

theorem foldl_digits_lt :
    ∀ (cs : List Char) (a : Nat), (∀ c ∈ cs, c.isDigit) →
      cs.foldl (fun a c => a * 10 + (c.toNat - 48)) a < (a + 1) * 10 ^ cs.length := by
  intro cs
  induction cs with
  | nil =>
    intro a _
    simp
  | cons c t ih =>
    intro a hall
    have hd : c.toNat - 48 ≤ 9 := char_digit_sub_le (hall c (by simp))
    have hstep := ih (a * 10 + (c.toNat - 48)) (fun x hx => hall x (by simp [hx]))
    calc (c :: t).foldl (fun a c => a * 10 + (c.toNat - 48)) a
        = t.foldl (fun a c => a * 10 + (c.toNat - 48)) (a * 10 + (c.toNat - 48)) := by
          simp [List.foldl_cons]
      _ < (a * 10 + (c.toNat - 48) + 1) * 10 ^ t.length := hstep
      _ ≤ ((a + 1) * 10) * 10 ^ t.length := by
          have hmul : a * 10 + (c.toNat - 48) + 1 ≤ (a + 1) * 10 := by omega
          exact Nat.mul_le_mul_right _ hmul
      _ = (a + 1) * 10 ^ (c :: t).length := by
          simp [List.length_cons, Nat.pow_succ]
          ring

theorem digitsToNat_lt {cs : List Char} (h : ∀ c ∈ cs, c.isDigit) :
    digitsToNat cs < 10 ^ cs.length := by
  have := foldl_digits_lt cs 0 h
  simpa [digitsToNat] using this

/-- The zone group matched by `TimeFieldFilter.time_re` is `Z`, a sign with
two digits, or a sign with four digits. -/
def timeZoneShape (z : String) : Prop :=
  z = "Z" ∨ ∃ sgn a b, (sgn = '+' ∨ sgn = '-') ∧ a.isDigit ∧ b.isDigit ∧
    (z = String.mk [sgn, a, b] ∨
      ∃ d e, d.isDigit ∧ e.isDigit ∧ z = String.mk [sgn, a, b, d, e])

theorem timeZoneMatch_shape : ∀ {cs : List Char} {z : String},
    timeZoneMatch cs = some z → timeZoneShape z := by
  intro cs z h
  unfold timeZoneMatch at h
  split at h
  · exact absurd h (by simp)
  · rename_i c rest
    by_cases hz : c = 'Z'
    · rw [if_pos hz] at h
      by_cases hr : rest = []
      · rw [if_pos hr] at h
        simp only [Option.some_inj] at h
        exact Or.inl h.symm
      · rw [if_neg hr] at h
        exact absurd h (by simp)
    · rw [if_neg hz] at h
      by_cases hsgn : c = '+' ∨ c = '-'
      · rw [if_pos hsgn] at h
        split at h
        · rename_i a b
          split at h
          · rename_i hab
            simp only [Option.some_inj] at h
            exact Or.inr ⟨c, a, b, hsgn, hab.1, hab.2, Or.inl h.symm⟩
          · exact absurd h (by simp)
        · rename_i a b d e
          split at h
          · rename_i hab
            simp only [Option.some_inj] at h
            exact Or.inr ⟨c, a, b, hsgn, hab.1, hab.2.1,
              Or.inr ⟨d, e, hab.2.2.1, hab.2.2.2, h.symm⟩⟩
          · exact absurd h (by simp)
        · exact absurd h (by simp)
      · rw [if_neg hsgn] at h
        exact absurd h (by simp)

theorem timeFracZone_props : ∀ {cs : List Char} {fz : Option String × String},
    timeFracZone cs = some fz →
      (∀ c ∈ (fz.1.getD "").data, c.isDigit) ∧ timeZoneShape fz.2 := by
  intro cs fz h
  unfold timeFracZone at h
  split at h
  · exact absurd h (by simp)
  · rename_i c rest
    by_cases hdot : c = '.'
    · rw [if_pos hdot] at h
      cases hz : timeZoneMatch (rest.dropWhile Char.isDigit) with
      | none =>
        rw [hz] at h
        simp at h
      | some z =>
        rw [hz] at h
        dsimp only at h
        split at h
        · simp only [Option.some_inj] at h
          subst h
          refine ⟨?_, timeZoneMatch_shape hz⟩
          intro x hx
          exact List.mem_takeWhile_imp (by simpa using hx)
        · exact absurd h (by simp)
    · rw [if_neg hdot] at h
      cases hz : timeZoneMatch (c :: rest) with
      | none => rw [hz] at h; exact absurd h (by simp)
      | some z =>
        rw [hz] at h
        simp only [Option.some_inj] at h
        subst h
        exact ⟨by simp, timeZoneMatch_shape hz⟩

theorem timeReMatch_props : ∀ {cs : List Char} {g : TimeGroups},
    timeReMatch cs = some g →
      (∀ c ∈ (g.frac.getD "").data, c.isDigit) ∧ timeZoneShape g.zone := by
  intro cs g h
  unfold timeReMatch at h
  split at h
  · rename_i h1 h2 m1 m2 s1 s2 rest
    split at h
    · rename_i hdig
      cases hfz : timeFracZone rest with
      | none => rw [hfz] at h; exact absurd h (by simp)
      | some fz =>
        rw [hfz] at h
        obtain ⟨frac, zone⟩ := fz
        simp only [Option.some_inj] at h
        subst h
        exact timeFracZone_props hfz
    · exact absurd h (by simp)
  · exact absurd h (by simp)

theorem timeZoneOffset_eq_spec {z : String} (hs : timeZoneShape z) (hz : z ≠ "Z") :
    timeZoneOffset z = specZoneMinutes z := by
  rcases hs with hZ | ⟨sgn, a, b, hsgn, ha, hb, hform⟩
  · exact absurd hZ hz
  · rcases hform with h3 | ⟨d, e, hd, he, h5⟩
    · subst h3
      rcases hsgn with rfl | rfl <;>
        simp [timeZoneOffset, specZoneMinutes, pyLjust, pySlice, strToNat,
          String.length, digitsToNat]
    · subst h5
      rcases hsgn with rfl | rfl <;>
        simp [timeZoneOffset, specZoneMinutes, pyLjust, pySlice, strToNat,
          String.length, digitsToNat]

theorem timeTz_eq_spec {z : String} (hs : timeZoneShape z)
    (hok : z = "Z" ∨ (-1440 < specZoneMinutes z ∧ specZoneMinutes z < 1440)) :
    timeTz z = .ok (specTimeZone z) := by
  by_cases hz : z = "Z"
  · subst hz
    simp [timeTz, specTimeZone]
  · have hoff : timeZoneOffset z = specZoneMinutes z := timeZoneOffset_eq_spec hs hz
    have hbound : -1440 < specZoneMinutes z ∧ specZoneMinutes z < 1440 := by
      rcases hok with h | h
      · exact absurd h hz
      · exact h
    rw [timeTz, if_neg hz, getFixedTimezone, hoff, if_pos hbound]
    simp [specTimeZone, hz]

theorem dtTag_of_bare {c : DTVal} (h : dtIsBareDate c = true) : dtTag c = .dateT := by
  cases c with
  | dval d => rfl
  | dtval t => exact absurd h (by simp [dtIsBareDate])
  | noneVal => exact absurd h (by simp [dtIsBareDate])

/-! ### Claims -/

/-- C2: for every field kind (modelled parametrically by its
allowed-qualifier set and `clean_value` function) and every qualifier
outside that set, `check_qualifier` fails with the unsupported-qualifier
`BinderRequestError` naming the qualifier and the field; both `get_q`s
return exactly that error for every raw value and every clean function —
so the check happens before any splitting or cleaning, and being a pure
membership test it changes no state. -/
theorem claim_C2 :
    (∀ (cls : String) (fd : FieldDesc) (allowed : List (Option String))
       (clean : Option String → String → Except BErr CVal)
       (q : Option String) (value : String) (invert : Bool) (pfx : String),
       q ∉ allowed →
         check_qualifier cls fd allowed q =
           .error (.requestError (unsupportedMsg cls fd q)) ∧
         get_q cls fd allowed clean q value invert pfx =
           .error (.requestError (unsupportedMsg cls fd q))) ∧
    (∀ (fd : FieldDesc) (q : Option String) (value : String) (invert : Bool) (pfx : String),
       q ∉ dtAllowed →
         dtGetQ fd q value invert pfx =
           .error (.requestError (unsupportedMsg "DateTimeFieldFilter" fd q))) := by
  constructor
  · intro cls fd allowed clean q value invert pfx h
    have hcq : check_qualifier cls fd allowed q =
        .error (.requestError (unsupportedMsg cls fd q)) := by
      simp [check_qualifier, h]
    exact ⟨hcq, by simp [get_q, hcq]⟩
  · intro fd q value invert pfx h
    have hcq : check_qualifier "DateTimeFieldFilter" fd dtAllowed q =
        .error (.requestError (unsupportedMsg "DateTimeFieldFilter" fd q)) := by
      simp [check_qualifier, h]
    simp [dtGetQ, hcq]

theorem claim_C2_witness :
    check_qualifier "IntegerFieldFilter" ⟨"Animal", "age"⟩ intAllowed (some "bogus") =
      .error (.requestError
        (unsupportedMsg "IntegerFieldFilter" ⟨"Animal", "age"⟩ (some "bogus"))) ∧
    dtGetQ ⟨"Animal", "age"⟩ (some "bogus") "1" false "" =
      .error (.requestError
        (unsupportedMsg "DateTimeFieldFilter" ⟨"Animal", "age"⟩ (some "bogus"))) := by
  refine ⟨?_, ?_⟩
  · exact (claim_C2.1 "IntegerFieldFilter" ⟨"Animal", "age"⟩ intAllowed
      (intCleanValue ⟨"Animal", "age"⟩) (some "bogus") "1" false "" (by decide)).1
  · exact claim_C2.2 ⟨"Animal", "age"⟩ (some "bogus") "1" false "" (by decide)

/-- C4: for every allowed-qualifier set containing `isnull` and every raw
value, `get_q` with qualifier `isnull` yields the cleaned value `True` —
for every clean function, so the raw value is never parsed and no
`InvalidValue` error can arise; likewise for `DateTimeFieldFilter.get_q`. -/
theorem claim_C4 :
    (∀ (cls : String) (fd : FieldDesc) (allowed : List (Option String))
       (clean : Option String → String → Except BErr CVal)
       (value : String) (invert : Bool) (pfx : String),
       some "isnull" ∈ allowed →
         get_q cls fd allowed clean (some "isnull") value invert pfx =
           .ok ⟨invert, pfx ++ fd.name ++ "__isnull", .bool true⟩) ∧
    (∀ (fd : FieldDesc) (value : String) (invert : Bool) (pfx : String),
       dtGetQ fd (some "isnull") value invert pfx =
         .ok ⟨invert, pfx ++ fd.name ++ "__isnull", .bool true⟩) := by
  constructor
  · intro cls fd allowed clean value invert pfx h
    simp +decide [get_q, check_qualifier, h, splitValues, qSuffix]
  · intro fd value invert pfx
    simp +decide [dtGetQ, check_qualifier, dtAllowed, splitValues, qSuffix]

theorem claim_C4_witness :
    get_q "IntegerFieldFilter" ⟨"Animal", "age"⟩ intAllowed
        (intCleanValue ⟨"Animal", "age"⟩) (some "isnull") "whatever" false "" =
      .ok ⟨false, "age__isnull", .bool true⟩ :=
  claim_C4.1 "IntegerFieldFilter" ⟨"Animal", "age"⟩ intAllowed
    (intCleanValue ⟨"Animal", "age"⟩) "whatever" false "" (by decide)

theorem get_q_multi_ok (cls : String) (fd : FieldDesc) (allowed : List (Option String))
    (clean : Option String → String → Except BErr CVal)
    (q : Option String) (value : String) (invert : Bool) (pfx : String)
    (values : List String) (cvs : List CVal)
    (hq : q = some "in" ∨ q = some "range")
    (hck : q ∈ allowed)
    (hsv : splitValues cls fd q value = .ok values)
    (hmap : values.mapM (clean q) = .ok cvs) :
    get_q cls fd allowed clean q value invert pfx =
      .ok ⟨invert, pfx ++ fd.name ++ qSuffix q, .list cvs⟩ := by
  have hck2 : check_qualifier cls fd allowed q = .ok () := by simp [check_qualifier, hck]
  rcases hq with rfl | rfl
  · simp only [get_q, hck2, hsv, hmap]
    simp
  · simp only [get_q, hck2, hsv, hmap]
    simp

theorem dtGetQ_multi_ok (fd : FieldDesc) (q : Option String) (value : String)
    (invert : Bool) (pfx : String) (values : List String) (cvs : List DTVal)
    (c : DTVal) (rest : List DTVal)
    (hq : q = some "in" ∨ q = some "range")
    (hsv : splitValues "DateTimeFieldFilter" fd q value = .ok values)
    (hmap : values.mapM (dtCleanValue fd q) = .ok cvs)
    (hded : ((cvs.map dtTag).dedup).length = 1)
    (hcons : cvs = c :: rest) :
    dtGetQ fd q value invert pfx =
      .ok ⟨invert,
           pfx ++ fd.name ++ qSuffix (if dtIsBareDate c then dateRewrite q else q),
           .list (cvs.map dtToC)⟩ := by
  have hck2 : check_qualifier "DateTimeFieldFilter" fd dtAllowed q = .ok () := by
    rcases hq with rfl | rfl <;> simp [check_qualifier, dtAllowed]
  subst hcons
  rcases hq with rfl | rfl
  · simp only [dtGetQ, hck2, hsv, hmap, hded]
    simp
  · simp only [dtGetQ, hck2, hsv, hmap, hded]
    simp

theorem dtGetQ_multi_mismatch (fd : FieldDesc) (q : Option String) (value : String)
    (invert : Bool) (pfx : String) (values : List String) (cvs : List DTVal)
    (hq : q = some "in" ∨ q = some "range")
    (hsv : splitValues "DateTimeFieldFilter" fd q value = .ok values)
    (hmap : values.mapM (dtCleanValue fd q) = .ok cvs)
    (hded : ((cvs.map dtTag).dedup).length ≠ 1) :
    dtGetQ fd q value invert pfx = .error (.validationError (sameTypesMsg fd)) := by
  have hck2 : check_qualifier "DateTimeFieldFilter" fd dtAllowed q = .ok () := by
    rcases hq with rfl | rfl <;> simp [check_qualifier, dtAllowed]
  rcases hq with rfl | rfl
  · simp only [dtGetQ, hck2, hsv, hmap]
    simp [hded]
  · simp only [dtGetQ, hck2, hsv, hmap]
    simp [hded]

/-- C3: a `range` filter accepts a raw value exactly when the comma-split
has two elements — one or three (or any count other than two) fail with the
count-mismatch `BinderRequestError` — and the two cleaned values are used
in input order `[lower, upper]` with no sorting, for the generic `get_q`
and for `DateTimeFieldFilter.get_q`. -/
theorem claim_C3 :
    (∀ (cls : String) (fd : FieldDesc) (allowed : List (Option String))
       (clean : Option String → String → Except BErr CVal)
       (value : String) (invert : Bool) (pfx : String),
       some "range" ∈ allowed → (pySplitComma value).length ≠ 2 →
         get_q cls fd allowed clean (some "range") value invert pfx =
           .error (.requestError (rangeCountMsg cls fd))) ∧
    (∀ (cls : String) (fd : FieldDesc) (allowed : List (Option String))
       (clean : Option String → String → Except BErr CVal)
       (a b value : String) (invert : Bool) (pfx : String) (ca cb : CVal),
       some "range" ∈ allowed → pySplitComma value = [a, b] →
       clean (some "range") a = .ok ca → clean (some "range") b = .ok cb →
         get_q cls fd allowed clean (some "range") value invert pfx =
           .ok ⟨invert, pfx ++ fd.name ++ "__range", .list [ca, cb]⟩) ∧
    (∀ (fd : FieldDesc) (value : String) (invert : Bool) (pfx : String),
       (pySplitComma value).length ≠ 2 →
         dtGetQ fd (some "range") value invert pfx =
           .error (.requestError (rangeCountMsg "DateTimeFieldFilter" fd))) ∧
    (∀ (fd : FieldDesc) (a b value : String) (invert : Bool) (pfx : String)
       (ca cb : DTVal),
       pySplitComma value = [a, b] →
       dtCleanValue fd (some "range") a = .ok ca →
       dtCleanValue fd (some "range") b = .ok cb →
       dtTag ca = dtTag cb →
         dtGetQ fd (some "range") value invert pfx =
           .ok ⟨invert,
                pfx ++ fd.name ++
                  (if dtIsBareDate ca then "__date__range" else "__range"),
                .list [dtToC ca, dtToC cb]⟩) := by
  refine ⟨?_, ?_, ?_, ?_⟩
  · intro cls fd allowed clean value invert pfx h hlen
    simp +decide [get_q, check_qualifier, h, splitValues, hlen]
  · intro cls fd allowed clean a b value invert pfx ca cb h hsplit hca hcb
    have hsv : splitValues cls fd (some "range") value = .ok [a, b] := by
      simp +decide [splitValues, hsplit]
    have hmap : ([a, b] : List String).mapM (clean (some "range")) = .ok [ca, cb] := by
      rw [List.mapM_cons, hca]
      rw [List.mapM_cons, hcb]
      rw [List.mapM_nil]
      rfl
    have hres := get_q_multi_ok cls fd allowed clean (some "range") value invert pfx
      [a, b] [ca, cb] (Or.inr rfl) h hsv hmap
    simpa [qSuffix] using hres
  · intro fd value invert pfx hlen
    simp +decide [dtGetQ, check_qualifier, dtAllowed, splitValues, hlen]
  · intro fd a b value invert pfx ca cb hsplit hca hcb htag
    have hsv : splitValues "DateTimeFieldFilter" fd (some "range") value = .ok [a, b] := by
      simp +decide [splitValues, hsplit]
    have hmap : ([a, b] : List String).mapM (dtCleanValue fd (some "range")) =
        .ok [ca, cb] := by
      rw [List.mapM_cons, hca]
      rw [List.mapM_cons, hcb]
      rw [List.mapM_nil]
      rfl
    have hded : ((([ca, cb] : List DTVal).map dtTag).dedup).length = 1 := by
      rw [List.map_cons, List.map_cons, List.map_nil, htag]
      simp [List.dedup_cons_of_mem]
    have hres := dtGetQ_multi_ok fd (some "range") value invert pfx [a, b] [ca, cb]
      ca [cb] (Or.inr rfl) hsv hmap hded rfl
    cases hbare : dtIsBareDate ca with
    | true => simpa [hbare, dateRewrite, qSuffix] using hres
    | false => simpa [hbare, qSuffix] using hres

theorem claim_C3_witness :
    get_q "IntegerFieldFilter" ⟨"Animal", "age"⟩ intAllowed
        (intCleanValue ⟨"Animal", "age"⟩) (some "range") "1,2,3" false "" =
      .error (.requestError (rangeCountMsg "IntegerFieldFilter" ⟨"Animal", "age"⟩)) ∧
    get_q "IntegerFieldFilter" ⟨"Animal", "age"⟩ intAllowed
        (intCleanValue ⟨"Animal", "age"⟩) (some "range") "9,2" false "" =
      .ok ⟨false, "age__range", .list [.int 9, .int 2]⟩ := by
  refine ⟨?_, ?_⟩
  · exact claim_C3.1 "IntegerFieldFilter" ⟨"Animal", "age"⟩ intAllowed
      (intCleanValue ⟨"Animal", "age"⟩) "1,2,3" false "" (by decide) (by decide)
  · exact claim_C3.2.1 "IntegerFieldFilter" ⟨"Animal", "age"⟩ intAllowed
      (intCleanValue ⟨"Animal", "age"⟩) "9" "2" "9,2" false "" (.int 9) (.int 2)
      (by decide) rfl rfl rfl

/-- C1: whenever `DateTimeFieldFilter.clean_value` resolves the value to a
bare date (no time component), `get_q` rewrites the qualifier to a
date-truncated one — the predicate key gets `date__` prefixed to the
qualifier, or becomes just `date` when no qualifier was given — both for
the single-valued qualifiers and for every `in`/`range` list whose cleaned
elements are all bare dates. -/
theorem claim_C1 :
    (∀ (fd : FieldDesc) (q : Option String) (v : String) (invert : Bool)
       (pfx : String) (d : DateV),
       q ∈ ([none, some "gt", some "gte", some "lt", some "lte"] : List (Option String)) →
       dtCleanValue fd q v = .ok (.dval d) →
         dtGetQ fd q v invert pfx =
           .ok ⟨invert, pfx ++ fd.name ++ qSuffix (dateRewrite q), .date d⟩) ∧
    (∀ (fd : FieldDesc) (q : Option String) (value : String) (invert : Bool)
       (pfx : String) (cvs : List DTVal),
       (q = some "in" ∨ q = some "range") →
       (q = some "range" → (pySplitComma value).length = 2) →
       (pySplitComma value).mapM (dtCleanValue fd q) = .ok cvs →
       (∀ c ∈ cvs, dtIsBareDate c = true) →
         dtGetQ fd q value invert pfx =
           .ok ⟨invert, pfx ++ fd.name ++ qSuffix (dateRewrite q),
                .list (cvs.map dtToC)⟩) := by
  constructor
  · intro fd q v invert pfx d hq hc
    have hck2 : check_qualifier "DateTimeFieldFilter" fd dtAllowed q = .ok () := by
      fin_cases hq <;> simp [check_qualifier, dtAllowed]
    fin_cases hq <;>
      · simp only [dtGetQ, hck2, splitValues]
        simp +decide
        rw [hc]
        simp [dtIsBareDate, dtToC]
  · intro fd q value invert pfx cvs hq hlen hmap hall
    have hsv : splitValues "DateTimeFieldFilter" fd q value = .ok (pySplitComma value) := by
      rcases hq with rfl | rfl
      · simp +decide [splitValues]
      · simp +decide [splitValues, hlen rfl]
    have hne : cvs ≠ [] := by
      intro he
      have hl := mapM_ok_length hmap
      rw [he] at hl
      exact pySplitComma_ne_nil value (List.length_eq_zero.mp hl.symm)
    have htags : ∀ t ∈ cvs.map dtTag, t = PyType.dateT := by
      intro t ht
      rcases List.mem_map.mp ht with ⟨c, hc, rfl⟩
      exact dtTag_of_bare (hall c hc)
    have hded : ((cvs.map dtTag).dedup).length = 1 := by
      rw [dedup_all_eq (cvs.map dtTag) PyType.dateT (by simpa using hne) htags]
      rfl
    obtain ⟨c, rest, rfl⟩ : ∃ c rest, cvs = c :: rest := by
      cases cvs with
      | nil => exact absurd rfl hne
      | cons c rest => exact ⟨c, rest, rfl⟩
    have hbare : dtIsBareDate c = true := hall c (by simp)
    have hres := dtGetQ_multi_ok fd q value invert pfx (pySplitComma value)
      (c :: rest) c rest hq hsv hmap hded rfl
    rw [hres, hbare]
    simp

theorem claim_C1_witness :
    dtGetQ ⟨"Animal", "birth"⟩ (some "gt") "2020-01-01" false "" =
      .ok ⟨false, "birth__date__gt", .date ⟨2020, 1, 1⟩⟩ ∧
    dtGetQ ⟨"Animal", "birth"⟩ (some "in") "2020-01-01,2020-01-02" false "" =
      .ok ⟨false, "birth__date__in", .list [.date ⟨2020, 1, 1⟩, .date ⟨2020, 1, 2⟩]⟩ := by
  refine ⟨?_, ?_⟩
  · exact claim_C1.1 ⟨"Animal", "birth"⟩ (some "gt") "2020-01-01" false "" ⟨2020, 1, 1⟩
      (by decide) rfl
  · exact claim_C1.2 ⟨"Animal", "birth"⟩ (some "in") "2020-01-01,2020-01-02" false ""
      [.dval ⟨2020, 1, 1⟩, .dval ⟨2020, 1, 2⟩] (Or.inl rfl) (by intro h; simp at h)
      rfl (by decide)

/-- C5: a datetime `in`/`range` filter whose comma-separated elements clean
to a mix of bare dates and full timestamps (so the set of resolved Python
types is not a singleton) fails with the same-types `ValidationError`
instead of producing a predicate. -/
theorem claim_C5 :
    ∀ (fd : FieldDesc) (q : Option String) (value : String) (invert : Bool)
      (pfx : String) (cvs : List DTVal),
      (q = some "in" ∨ q = some "range") →
      (q = some "range" → (pySplitComma value).length = 2) →
      (pySplitComma value).mapM (dtCleanValue fd q) = .ok cvs →
      PyType.dateT ∈ cvs.map dtTag → PyType.datetimeT ∈ cvs.map dtTag →
        dtGetQ fd q value invert pfx = .error (.validationError (sameTypesMsg fd)) := by
  intro fd q value invert pfx cvs hq hlen hmap hd hdt
  have hsv : splitValues "DateTimeFieldFilter" fd q value = .ok (pySplitComma value) := by
    rcases hq with rfl | rfl
    · simp +decide [splitValues]
    · simp +decide [splitValues, hlen rfl]
  have hded : ((cvs.map dtTag).dedup).length ≠ 1 :=
    dedup_length_ne_one_of_two hd hdt (by decide)
  exact dtGetQ_multi_mismatch fd q value invert pfx (pySplitComma value) cvs hq hsv
    hmap hded

theorem claim_C5_witness :
    dtGetQ ⟨"Animal", "birth"⟩ (some "in") "2020-01-01,2020-01-01T00:00:00Z" false "" =
      .error (.validationError (sameTypesMsg ⟨"Animal", "birth"⟩)) := by
  exact claim_C5 ⟨"Animal", "birth"⟩ (some "in") "2020-01-01,2020-01-01T00:00:00Z"
    false "" [.dval ⟨2020, 1, 1⟩, .dtval ⟨⟨2020, 1, 1⟩, 0, 0, 0, 0, some .utc⟩]
    (Or.inl rfl) (by intro h; simp at h) rfl (by decide) (by decide)

/-- C6 counterexample: with qualifier `None` and the empty raw value, the
integer filter does *not* fail with the may-not-be-empty `ValidationError`;
the empty string is passed to `clean_value` and fails as an invalid value.
The two messages differ, so the claimed `EmptyValue` error does not occur. -/
theorem claim_C6_counterexample :
    get_q "IntegerFieldFilter" ⟨"Animal", "age"⟩ intAllowed
        (intCleanValue ⟨"Animal", "age"⟩) none "" false "" =
      .error (.validationError
        "Invalid value \x7b\x7d for IntegerFieldFilter \x7bAnimal\x7d.\x7bage\x7d.") ∧
    "Invalid value \x7b\x7d for IntegerFieldFilter \x7bAnimal\x7d.\x7bage\x7d." ≠
      emptyValueMsg ⟨"Animal", "age"⟩ :=
  ⟨rfl, by decide⟩

/-- C6 (amended): for every qualifier other than `in` and `range` (and
other than `isnull`), `get_q` uses exactly one value — the whole raw
string — and hands it directly to `clean_value`; the value list always has
exactly one element, so the may-not-be-empty branch is unreachable and an
empty raw string reaches cleaning (failing with `InvalidValue` for parsing
kinds) instead of raising the `EmptyValue` error. -/
theorem claim_C6_amended :
    (∀ (cls : String) (fd : FieldDesc) (allowed : List (Option String))
       (clean : Option String → String → Except BErr CVal)
       (q : Option String) (value : String) (invert : Bool) (pfx : String),
       q ∈ allowed → q ∉ [some "in", some "range", some "isnull"] →
         get_q cls fd allowed clean q value invert pfx =
           (clean q value).map
             (fun c => ⟨invert, pfx ++ fd.name ++ qSuffix q, c⟩)) ∧
    (∀ (fd : FieldDesc) (q : Option String) (value : String) (invert : Bool)
       (pfx : String) (c : DTVal),
       q ∈ dtAllowed → q ∉ [some "in", some "range", some "isnull"] →
       dtCleanValue fd q value = .ok c →
         dtGetQ fd q value invert pfx =
           .ok ⟨invert,
                pfx ++ fd.name ++
                  qSuffix (if dtIsBareDate c then dateRewrite q else q),
                dtToC c⟩) ∧
    (∀ (fd : FieldDesc) (q : Option String) (value : String) (invert : Bool)
       (pfx : String) (e : BErr),
       q ∈ dtAllowed → q ∉ [some "in", some "range", some "isnull"] →
       dtCleanValue fd q value = .error e →
         dtGetQ fd q value invert pfx = .error e) := by
  refine ⟨?_, ?_, ?_⟩
  · intro cls fd allowed clean q value invert pfx hq hq2
    simp only [List.mem_cons, List.not_mem_nil, or_false, not_or] at hq2
    obtain ⟨hin, hrange, hisnull⟩ := hq2
    have hck2 : check_qualifier cls fd allowed q = .ok () := by
      simp [check_qualifier, hq]
    have hsv : splitValues cls fd q value = .ok [value] := by
      simp [splitValues, hin, hrange]
    simp only [get_q, hck2, hsv, hisnull]
    simp only [if_neg hisnull, if_neg (by simp [hin, hrange] : ¬(q = some "in" ∨ q = some "range"))]
    cases hcv : clean q value <;> simp [Except.map]
  · intro fd q value invert pfx c hq hq2 hc
    simp only [List.mem_cons, List.not_mem_nil, or_false, not_or] at hq2
    obtain ⟨hin, hrange, hisnull⟩ := hq2
    have hck2 : check_qualifier "DateTimeFieldFilter" fd dtAllowed q = .ok () := by
      simp [check_qualifier, hq]
    have hsv : splitValues "DateTimeFieldFilter" fd q value = .ok [value] := by
      simp [splitValues, hin, hrange]
    simp only [dtGetQ, hck2, hsv]
    simp only [if_neg hisnull, if_neg (by simp [hin, hrange] : ¬(q = some "in" ∨ q = some "range"))]
    rw [hc]
  · intro fd q value invert pfx e hq hq2 hc
    simp only [List.mem_cons, List.not_mem_nil, or_false, not_or] at hq2
    obtain ⟨hin, hrange, hisnull⟩ := hq2
    have hck2 : check_qualifier "DateTimeFieldFilter" fd dtAllowed q = .ok () := by
      simp [check_qualifier, hq]
    have hsv : splitValues "DateTimeFieldFilter" fd q value = .ok [value] := by
      simp [splitValues, hin, hrange]
    simp only [dtGetQ, hck2, hsv]
    simp only [if_neg hisnull, if_neg (by simp [hin, hrange] : ¬(q = some "in" ∨ q = some "range"))]
    rw [hc]

theorem claim_C6_amended_witness :
    get_q "IntegerFieldFilter" ⟨"Animal", "age"⟩ intAllowed
        (intCleanValue ⟨"Animal", "age"⟩) (some "gt") "" false "" =
      (intCleanValue ⟨"Animal", "age"⟩ (some "gt") "").map
        (fun c => ⟨false, "age__gt", c⟩) := by
  have h := claim_C6_amended.1 "IntegerFieldFilter" ⟨"Animal", "age"⟩ intAllowed
    (intCleanValue ⟨"Animal", "age"⟩) (some "gt") "" false "" (by decide) (by decide)
  exact h

/-- C7: for every array filter whose element class resolves to a filter,
`clean_value` of the empty raw string is the empty list (not `[""]`), and
every non-empty raw string is comma-split and cleaned element by element by
the resolved element filter, preserving element order (the i-th cleaned
value comes from the i-th split element). -/
theorem claim_C7 :
    ∀ (jl : String → Except BErr CVal) (base : FieldType) (k : FilterKind)
      (fd : FieldDesc) (q : Option String),
      get_field_filter (ftName base) = some k →
        (cleanValue jl .array (.arrayOf base) fd q "" = .ok (.list [])) ∧
        (∀ v, v ≠ "" →
          cleanValue jl .array (.arrayOf base) fd q v =
            (cleanList jl k base fd q (pySplitComma v)).map CVal.list) ∧
        (∀ v res, v ≠ "" →
          cleanValue jl .array (.arrayOf base) fd q v = .ok (.list res) →
            res.length = (pySplitComma v).length ∧
            ∀ i (h1 : i < (pySplitComma v).length) (h2 : i < res.length),
              cleanValue jl k base fd q ((pySplitComma v).get ⟨i, h1⟩) =
                .ok (res.get ⟨i, h2⟩)) := by
  intro jl base k fd q hres
  refine ⟨?_, ?_, ?_⟩
  · rw [cleanValue, hres]
    simp
  · intro v hv
    rw [cleanValue, hres]
    dsimp only
    rw [if_neg hv]
    cases hcl : cleanList jl k base fd q (pySplitComma v) <;> simp [Except.map]
  · intro v res hv harr
    rw [cleanValue, hres] at harr
    dsimp only at harr
    rw [if_neg hv] at harr
    cases hcl : cleanList jl k base fd q (pySplitComma v) with
    | error e => rw [hcl] at harr; exact absurd harr (by simp)
    | ok cvs =>
      rw [hcl] at harr
      simp only [Except.ok.injEq, CVal.list.injEq] at harr
      subst harr
      exact cleanList_ok hcl

theorem claim_C7_witness :
    cleanValue (fun s => .ok (.str s)) .array (.arrayOf (.basic .IntegerField))
        ⟨"Animal", "tags"⟩ (some "contains") "" = .ok (.list []) ∧
    cleanValue (fun s => .ok (.str s)) .array (.arrayOf (.basic .IntegerField))
        ⟨"Animal", "tags"⟩ (some "contains") "3,1,2" =
      .ok (.list [.int 3, .int 1, .int 2]) := by
  have h := claim_C7 (fun s => .ok (.str s)) (.basic .IntegerField) .integer
    ⟨"Animal", "tags"⟩ (some "contains") rfl
  refine ⟨h.1, ?_⟩
  rw [h.2.1 "3,1,2" (by decide)]
  simp +decide [cleanList, cleanValue, pySplitComma, splitCommaAux, intCleanValue,
    pyInt, intDigits, intDigitsRest, isPySpace, digitsToNat, Except.map]

/-- C8: `JSONFieldFilter.clean_value` passes the raw string through for
`has_key`; comma-splits it for `has_keys`/`has_any_keys` with the empty
string yielding the empty list; and for every other allowed qualifier
returns exactly the canonical JSON decoder's result, so malformed JSON
fails with that decoder's uniform error. -/
theorem claim_C8 :
    ∀ (jl : String → Except BErr CVal) (v : String),
      jsonCleanValue jl (some "has_key") v = .ok (.str v) ∧
      jsonCleanValue jl (some "has_keys") "" = .ok (.list []) ∧
      jsonCleanValue jl (some "has_any_keys") "" = .ok (.list []) ∧
      (v ≠ "" →
        jsonCleanValue jl (some "has_keys") v =
          .ok (.list ((pySplitComma v).map CVal.str)) ∧
        jsonCleanValue jl (some "has_any_keys") v =
          .ok (.list ((pySplitComma v).map CVal.str))) ∧
      (∀ q, q ∈ jsonAllowed →
        q ∉ [some "has_key", some "has_keys", some "has_any_keys"] →
        jsonCleanValue jl q v = jl v) := by
  intro jl v
  refine ⟨by simp +decide [jsonCleanValue], by simp +decide [jsonCleanValue],
          by simp +decide [jsonCleanValue], ?_, ?_⟩
  · intro hv
    constructor <;> simp +decide [jsonCleanValue, hv]
  · intro q hq hq2
    simp only [List.mem_cons, List.not_mem_nil, or_false, not_or] at hq2
    obtain ⟨h1, h2, h3⟩ := hq2
    simp [jsonCleanValue, h1, h2, h3]

theorem claim_C8_witness :
    jsonCleanValue (fun s => .ok (.str s)) (some "has_keys") "a,b,c" =
      .ok (.list [.str "a", .str "b", .str "c"]) ∧
    jsonCleanValue (fun s => .error (.requestError "bad json")) (some "contains") "nope" =
      .error (.requestError "bad json") := by
  refine ⟨?_, ?_⟩
  · exact ((claim_C8 (fun s => .ok (.str s)) "a,b,c").2.2.2.1 (by decide)).1
  · exact (claim_C8 (fun s => .error (.requestError "bad json")) "nope").2.2.2.2
      (some "contains") (by decide) (by decide)

/-- C9: a newly created instance (falsy primary key at init) has every
snapshotted field set to the new-instance sentinel; the first save then
emits exactly one change record per field, from the sentinel to the
field's value, in field order, and refreshes the snapshot to those values;
a save whose field values all equal the snapshot emits zero records and
leaves the snapshot unchanged; and a field missing from the snapshot (not
loaded) never produces a change record. -/
theorem claim_C9 :
    (∀ (V : Type) (inst : Inst V), pkTruthy inst.pk = false →
       history_obj_post_init inst =
         (concreteFieldsDict true inst).map (fun p => (p.1, HSnap.newInstanceField))) ∧
    (∀ (V : Type) [DecidableEq V] (sender : String) (inst : Inst V),
       inst.deferredFields = [] → (inst.fieldVals.map Prod.fst).Nodup →
         history_obj_post_save sender inst
             (inst.fieldVals.map (fun p => (p.1, HSnap.newInstanceField))) =
           (inst.fieldVals.map (fun p => (p.1, HSnap.val p.2)),
            inst.fieldVals.map
              (fun p => Change.mk sender inst.pk p.1 HSnap.newInstanceField p.2))) ∧
    (∀ (V : Type) [DecidableEq V] (sender : String) (inst : Inst V),
       inst.deferredFields = [] → (inst.fieldVals.map Prod.fst).Nodup →
         history_obj_post_save sender inst
             (inst.fieldVals.map (fun p => (p.1, HSnap.val p.2))) =
           (inst.fieldVals.map (fun p => (p.1, HSnap.val p.2)), [])) ∧
    (∀ (V : Type) [DecidableEq V] (sender : String) (inst : Inst V)
       (hist : List (String × HSnap V)) (name : String),
       histLookup hist name = none →
         ∀ c ∈ (history_obj_post_save sender inst hist).2, c.field ≠ name) := by
  refine ⟨?_, ?_, ?_, ?_⟩
  · intro V inst hpk
    simp [history_obj_post_init, hpk, List.map_map, Function.comp]
  · intro V _ sender inst hdef hnd
    have h := postSaveGo_new sender inst.pk inst.fieldVals [] hnd
      (by intro n _; rfl)
    simpa [history_obj_post_save, concreteFieldsDict] using h
  · intro V _ sender inst hdef hnd
    have h := postSaveGo_same sender inst.pk inst.fieldVals [] hnd
      (by intro n _; rfl)
    simpa [history_obj_post_save, concreteFieldsDict] using h
  · intro V _ sender inst hist name hnone c hc
    exact postSaveGo_skip (concreteFieldsDict false inst) hist name hnone c hc

theorem claim_C9_witness :
    history_obj_post_init (⟨none, [("a", (1 : Int)), ("b", 2)], []⟩ : Inst Int) =
      [("a", .newInstanceField), ("b", .newInstanceField)] ∧
    history_obj_post_save "Animal" (⟨some 5, [("a", (1 : Int)), ("b", 2)], []⟩ : Inst Int)
        [("a", .newInstanceField), ("b", .newInstanceField)] =
      ([("a", .val 1), ("b", .val 2)],
       [⟨"Animal", some 5, "a", .newInstanceField, 1⟩,
        ⟨"Animal", some 5, "b", .newInstanceField, 2⟩]) ∧
    history_obj_post_save "Animal" (⟨some 5, [("a", (1 : Int)), ("b", 2)], []⟩ : Inst Int)
        [("a", .val 1), ("b", .val 2)] = ([("a", .val 1), ("b", .val 2)], []) := by
  refine ⟨?_, ?_, ?_⟩
  · exact claim_C9.1 Int ⟨none, [("a", 1), ("b", 2)], []⟩ rfl
  · exact claim_C9.2.1 Int "Animal" ⟨some 5, [("a", 1), ("b", 2)], []⟩ rfl (by decide)
  · exact claim_C9.2.2.1 Int "Animal" ⟨some 5, [("a", 1), ("b", 2)], []⟩ rfl (by decide)

theorem takeWhile_ones (n : Nat) :
    (List.replicate n '1' ++ ['Z']).takeWhile Char.isDigit = List.replicate n '1' ∧
    (List.replicate n '1' ++ ['Z']).dropWhile Char.isDigit = ['Z'] := by
  induction n with
  | zero => constructor <;> simp +decide [List.takeWhile_cons, List.dropWhile_cons]
  | succ k ih =>
    constructor <;>
      simp +decide [List.replicate_succ, List.takeWhile_cons, List.dropWhile_cons,
        ih.1, ih.2]

/-- C10 counterexample: two inputs whose fractional-seconds part has at
most 6 digits (none at all) on which `TimeFieldFilter.clean_value` neither
returns a time nor raises the `InvalidValue` `ValidationError`: an
out-of-range hour makes `datetime.time` raise an uncaught `ValueError`, and
an out-of-range zone makes the `timezone` constructor raise one. -/
theorem claim_C10_counterexample :
    timeCleanValue ⟨"Animal", "when"⟩ none "25:00:00Z" =
      .error (.pyException "ValueError: invalid time component") ∧
    timeCleanValue ⟨"Animal", "when"⟩ none "12:00:00+25" =
      .error (.pyException "ValueError: offset must be a timedelta strictly between -timedelta(hours=24) and timedelta(hours=24)") :=
  ⟨rfl, rfl⟩

/-- C10 (amended): `TimeFieldFilter.clean_value` returns a time value (and
never escapes into an uncaught error) for every matched input whose
fractional part has at most 6 digits, whose hour/minute/second components
are in range, and whose zone offset is under 24 hours; the microseconds are
the fraction right-padded with zeros to 6 digits, the zone `Z` maps to UTC
and `±HH`/`±HHMM` to the corresponding fixed offset with `±HH` padded to
`±HH00` (via `specTimeZone`).  The accepting regex allows arbitrarily many
fractional digits, and the accepted input `12:00:00.1234567Z` (7 digits)
produces a microsecond value outside 0..999999, so the failure escapes the
`InvalidValue` error path as an uncaught `ValueError`. -/
theorem claim_C10_amended :
    (∀ (fd : FieldDesc) (q : Option String) (v : String) (g : TimeGroups),
       timeReMatch v.data = some g →
       (g.frac.getD "").length ≤ 6 →
       strToNat g.h ≤ 23 → strToNat g.m ≤ 59 → strToNat g.s ≤ 59 →
       (g.zone = "Z" ∨
         (-1440 < specZoneMinutes g.zone ∧ specZoneMinutes g.zone < 1440)) →
         timeCleanValue fd q v =
           .ok (.time ⟨strToNat g.h, strToNat g.m, strToNat g.s,
                strToNat (pyLjust (g.frac.getD "") 6 '0'),
                some (specTimeZone g.zone)⟩)) ∧
    (∀ n, 1 ≤ n →
       (timeReMatch ("12:00:00." ++ String.mk (List.replicate n '1') ++ "Z").data).isSome) ∧
    timeCleanValue ⟨"Animal", "when"⟩ none "12:00:00.1234567Z" =
      .error (.pyException "ValueError: invalid time component") := by
  refine ⟨?_, ?_, rfl⟩
  · intro fd q v g hm hfrac hh hmn hs hz
    obtain ⟨hdig, hshape⟩ := timeReMatch_props hm
    have htz : timeTz g.zone = .ok (specTimeZone g.zone) := timeTz_eq_spec hshape hz
    have hus : strToNat (pyLjust (g.frac.getD "") 6 '0') ≤ 999999 := by
      have hdata : (pyLjust (g.frac.getD "") 6 '0').data =
          (g.frac.getD "").data ++
            List.replicate (6 - (g.frac.getD "").length) '0' := by
        simp [pyLjust, String.data_append]
      have hall : ∀ c ∈ (pyLjust (g.frac.getD "") 6 '0').data, c.isDigit := by
        rw [hdata]
        intro c hc
        rcases List.mem_append.mp hc with h | h
        · exact hdig c h
        · rw [List.eq_of_mem_replicate h]; decide
      have hlen : (pyLjust (g.frac.getD "") 6 '0').data.length ≤ 6 := by
        rw [hdata]
        have hfl : (g.frac.getD "").data.length ≤ 6 := hfrac
        simp [List.length_append, List.length_replicate]
        omega
      have hval := digitsToNat_lt hall
      have hpow : (10 : Nat) ^ (pyLjust (g.frac.getD "") 6 '0').data.length ≤ 10 ^ 6 :=
        Nat.pow_le_pow_right (by norm_num) hlen
      have : strToNat (pyLjust (g.frac.getD "") 6 '0') < 10 ^ 6 :=
        lt_of_lt_of_le hval hpow
      omega
    simp only [timeCleanValue, hm]
    rw [htz]
    simp only [mkPyTime]
    rw [if_pos (show strToNat g.h ≤ 23 ∧ strToNat g.m ≤ 59 ∧ strToNat g.s ≤ 59 ∧
      strToNat (pyLjust (g.frac.getD "") 6 '0') ≤ 999999 from ⟨hh, hmn, hs, hus⟩)]
  · intro n hn
    have hdata : ("12:00:00." ++ String.mk (List.replicate n '1') ++ "Z").data =
        '1' :: '2' :: ':' :: '0' :: '0' :: ':' :: '0' :: '0' :: '.' ::
          (List.replicate n '1' ++ ['Z']) := by
      simp [String.data_append]
    rw [hdata]
    simp only [timeReMatch]
    rw [if_pos (by decide)]
    simp only [timeFracZone, if_pos rfl, (takeWhile_ones n).1, (takeWhile_ones n).2]
    simp [timeZoneMatch, hn]

theorem claim_C10_witness :
    timeCleanValue ⟨"Animal", "when"⟩ none "12:00:00.5+0130" =
      .ok (.time ⟨12, 0, 0, 500000, some (.fixedOffset 90)⟩) ∧
    (timeReMatch ("12:00:00." ++ String.mk (List.replicate 7 '1') ++ "Z").data).isSome := by
  refine ⟨?_, claim_C10_amended.2.1 7 (by decide)⟩
  exact claim_C10_amended.1 ⟨"Animal", "when"⟩ none "12:00:00.5+0130"
    ⟨"12", "00", "00", some "5", "+0130"⟩ rfl (by decide) (by decide) (by decide)
    (by decide) (by decide)
